import Mathlib

/-!
Verification of the core logic of the french-ai-tutor-api repository against
its specification, via a shallow embedding in Lean 4.

Embedded components (all translated directly from the Python source):
  * `app/mimi.py`     — `_normalize_to_strict_schema` (schema normalizer)
  * `app/ingest.py`   — `chunk_text` (sentence-aware chunker)
  * `app/ocr_abbyy.py`— confidence gate of `ocr_file_to_text` and `_poll_task`
  * `app/main.py`     — `create_lesson` / `get_lesson` route logic
  * `app/tasks.py`    — `process_lesson` status transitions, `_force_image_urls`

Python JSON values are modelled by the inductive type `PyVal` (floats as exact
rationals), Python strings by Lean `String` (or `List Char` where character
counting matters), Python exceptions by `Except`.
-/

/-! ## Python value model -/

/-- Python values as produced by `json.loads`: `None`, `bool`, `int`, `float`
(modelled as exact rationals), `str`, `list` and `dict` (an association list;
real Python dicts have unique keys). -/
inductive PyVal where
  | none
  | bool (b : Bool)
  | int (n : Int)
  | float (q : Rat)
  | str (s : String)
  | list (l : List PyVal)
  | dict (d : List (String × PyVal))
deriving Repr

/-- Python truthiness: `bool(x)` for each value shape. -/
def truthy : PyVal → Bool
  | .none => false
  | .bool b => b
  | .int n => n != 0
  | .float q => q != 0
  | .str s => !(s == "")
  | .list l => !l.isEmpty
  | .dict d => !d.isEmpty

/-- Python `a or b`: the first operand if truthy, else the second. -/
def pyOr (a b : PyVal) : PyVal :=
  if truthy a then a else b

/-- Python `d.get(k)`: the value at key `k`, `None` when missing. -/
def pyGet (d : List (String × PyVal)) (k : String) : PyVal :=
  match d.find? (fun p => p.1 == k) with
  | Option.some p => p.2
  | Option.none => PyVal.none

/-- Python `k in d` for a dict. -/
def pyHasKey (d : List (String × PyVal)) (k : String) : Bool :=
  d.any (fun p => p.1 == k)

/-- Python `d[k] = v`: replace the value in place when the key exists
(a real dict holds the key at most once), else append the new pair. -/
def dictSet (d : List (String × PyVal)) (k : String) (v : PyVal) :
    List (String × PyVal) :=
  if pyHasKey d k then d.map (fun p => if p.1 == k then (p.1, v) else p)
  else d ++ [(k, v)]

/-- Python `d.setdefault(k, v)`. -/
def dictSetDefault (d : List (String × PyVal)) (k : String) (v : PyVal) :
    List (String × PyVal) :=
  if pyHasKey d k then d else d ++ [(k, v)]

/-- Python `d.pop(k, None)`: the dict with the entry for `k` removed. -/
def dictRemove (d : List (String × PyVal)) (k : String) :
    List (String × PyVal) :=
  d.eraseP (fun p => p.1 == k)

/-- Python `isinstance(v, (int, float))`; note `bool` is a subclass of `int`. -/
def isNum : PyVal → Bool
  | .bool _ => true
  | .int _ => true
  | .float _ => true
  | _ => false

/-- Python `isinstance(v, str)`. -/
def isStr : PyVal → Bool
  | .str _ => true
  | _ => false

/-- Python `int(x)` on a numeric value: floats truncate toward zero. -/
def pyIntOfNum : PyVal → Int
  | .bool b => if b then 1 else 0
  | .int n => n
  | .float q => Int.tdiv q.num (q.den : Int)
  | _ => 0

/-- Python `\s` / `str.strip` whitespace (ASCII range). -/
def isPySpace (c : Char) : Bool :=
  c == ' ' || c == '\t' || c == '\n' || c == '\x0b' || c == '\x0c' || c == '\r'

/-- Python `s.strip()` on a character list. -/
def pyStripChars (l : List Char) : List Char :=
  ((l.dropWhile isPySpace).reverse.dropWhile isPySpace).reverse

/-- Python `s.strip()` on a string. -/
def pyStripStr (s : String) : String :=
  String.mk (pyStripChars s.data)

/-- Python `int(x)` on an arbitrary value, `Option.none` when it raises.
Strings parse as decimal integers (Lean's `String.toInt?` after trimming;
Python additionally tolerates underscores, which no caller here uses). -/
def pyIntCast : PyVal → Option Int
  | .bool b => Option.some (if b then 1 else 0)
  | .int n => Option.some n
  | .float q => Option.some (Int.tdiv q.num (q.den : Int))
  | .str s => (pyStripStr s).toInt?
  | _ => Option.none

mutual
/-- Python `repr(x)` (approximate: floats are shown as exact rationals and
quotes inside strings are not escaped; no claim depends on these renderings). -/
def pyRepr : PyVal → String
  | .none => "None"
  | .bool b => if b then "True" else "False"
  | .int n => toString n
  | .float q => toString q.num ++ "/" ++ toString q.den
  | .str s => "\x27" ++ s ++ "\x27"
  | .list l => "[" ++ String.intercalate ", " (pyReprList l) ++ "]"
  | .dict d => "\x7b" ++ String.intercalate ", " (pyReprPairs d) ++ "\x7d"

/-- Helper of `pyRepr` for list elements. -/
def pyReprList : List PyVal → List String
  | [] => []
  | x :: xs => pyRepr x :: pyReprList xs

/-- Helper of `pyRepr` for dict entries. -/
def pyReprPairs : List (String × PyVal) → List String
  | [] => []
  | (k, v) :: xs => ("\x27" ++ k ++ "\x27: " ++ pyRepr v) :: pyReprPairs xs
end

/-- Python `str(x)`: identity on strings, `repr` otherwise. -/
def pyStr : PyVal → String
  | .str s => s
  | v => pyRepr v

/-- Helper of `str.title()`: uppercase a letter that does not follow a letter,
lowercase one that does (ASCII scope, which covers every use here). -/
def pyTitleAux : Bool → List Char → List Char
  | _, [] => []
  | prevAlpha, c :: cs =>
    (if c.isAlpha then (if prevAlpha then c.toLower else c.toUpper) else c)
      :: pyTitleAux c.isAlpha cs

/-- Python `s.title()`. -/
def pyTitle (s : String) : String :=
  String.mk (pyTitleAux false s.data)

/-- Python `sep.join(xs)` for a list of values: every element must be a `str`,
otherwise a `TypeError` is raised. -/
def pyJoin (sep : String) : List PyVal → Except String String
  | [] => Except.ok ""
  | [.str s] => Except.ok s
  | .str s :: x :: rest =>
    match pyJoin sep (x :: rest) with
    | Except.ok r => Except.ok (s ++ sep ++ r)
    | Except.error e => Except.error e
  | _ => Except.error "sequence item: expected str instance"

/-! ## Schema normalizer (`_normalize_to_strict_schema`, app/mimi.py)

The normalizer takes the dict parsed from the model output and coerces it to
the strict lesson schema; `raise` is modelled by `Except.error`. -/

/-- Line 67: `title = obj.get("title") or obj.get("lesson_title") or "Leçon"`. -/
def normTitle (obj : List (String × PyVal)) : PyVal :=
  pyOr (pyGet obj "title") (pyOr (pyGet obj "lesson_title") (.str "Leçon"))

/-- Lines 70–81: duration normalization. -/
def normDuration (obj : List (String × PyVal)) : PyVal :=
  if pyHasKey obj "duration" && isNum (pyGet obj "duration") then
    .str (toString (pyIntOfNum (pyGet obj "duration")) ++ " min")
  else if pyHasKey obj "duration" && isStr (pyGet obj "duration") then
    pyGet obj "duration"
  else if pyHasKey obj "duration_minutes" then
    let v := (pyIntCast (pyOr (pyGet obj "duration_minutes") (.int 30))).getD 30
    .str (toString v ++ " min")
  else .str "30 min"

/-- Lines 83–85: `objectives = obj.get("objectives") or []`, scalar wrapped by
`str`.  (The length check of line 86 lives in `normalizeLesson`.) -/
def normObjectives (obj : List (String × PyVal)) : List PyVal :=
  match pyOr (pyGet obj "objectives") (.list []) with
  | .list l => l
  | v => [.str (pyStr v)]

/-- Lines 89–93: materials, string wrapped as singleton, non-list via `str`.
(The emptiness check of line 94 lives in `normalizeLesson`.) -/
def normMaterials (obj : List (String × PyVal)) : List PyVal :=
  match pyOr (pyGet obj "materials") (pyOr (pyGet obj "material_list") (.list [])) with
  | .str s => [.str s]
  | .list l => l
  | v => [.str (pyStr v)]

/-- `key.replace("_", " ")` (line 100): since the pattern is the single
character `_`, substring replacement coincides with a character map. -/
def pyReplaceUS (s : String) : String :=
  ⟨s.data.map (fun c => if c = '_' then ' ' else c)⟩

/-- Lines 97–111: `_norm_activity(key)`.  The `or`-chains are evaluated lazily
exactly as in Python, so `" • ".join(...)` (which may raise `TypeError`) is
reached only when `teacher_script` and `script` are falsy and `steps` is a
list. -/
def normActivity (obj : List (String × PyVal)) (key : String) :
    Except String PyVal := do
  let raw0 := pyOr (pyGet obj key) (.dict [])
  let raw := match raw0 with
    | .dict d => d
    | _ => []
  let name := pyOr (pyGet raw "name")
      (pyOr (pyGet raw "title") (.str (pyTitle (pyReplaceUS key))))
  let minutes0 := pyOr (pyGet raw "minutes")
      (pyOr (pyGet raw "duration") (pyOr (pyGet raw "duration_minutes") (.str "")))
  let minutes := if isNum minutes0 then PyVal.str (toString (pyIntOfNum minutes0))
    else minutes0
  let ts := pyGet raw "teacher_script"
  let script ←
    if truthy ts then pure ts
    else
      let sc := pyGet raw "script"
      if truthy sc then pure sc
      else do
        let third ← (match pyGet raw "steps" with
          | .list steps => do
              let j ← pyJoin " • " steps
              pure (PyVal.str j)
          | _ => pure (pyGet raw "description"))
        if truthy third then pure third else pure (PyVal.str "")
  pure (.dict [("name", name), ("minutes", minutes), ("teacher_script", script)])

/-- The step-normalization body shared verbatim by `_norm_activity`
(lines 97–111) and the plan loop (lines 128–141); `raw` is the step dict and
`nameDefault` the fallback name (`key.replace("_", " ").title()` for
activities, `"Étape"` for plan steps).  `normActivity` and `planStep` are
definitionally equal to instances of this function (see
`normActivity_eq_stepCore` / `planStep_eq_stepCore`). -/
def stepCore (raw : List (String × PyVal)) (nameDefault : String) :
    Except String PyVal := do
  let name := pyOr (pyGet raw "name")
      (pyOr (pyGet raw "title") (.str nameDefault))
  let minutes0 := pyOr (pyGet raw "minutes")
      (pyOr (pyGet raw "duration") (pyOr (pyGet raw "duration_minutes") (.str "")))
  let minutes := if isNum minutes0 then PyVal.str (toString (pyIntOfNum minutes0))
    else minutes0
  let ts := pyGet raw "teacher_script"
  let script ←
    if truthy ts then pure ts
    else
      let sc := pyGet raw "script"
      if truthy sc then pure sc
      else do
        let third ← (match pyGet raw "steps" with
          | .list steps => do
              let j ← pyJoin " • " steps
              pure (PyVal.str j)
          | _ => pure (pyGet raw "description"))
        if truthy third then pure third else pure (PyVal.str "")
  pure (.dict [("name", name), ("minutes", minutes), ("teacher_script", script)])

/-- The seven activity keys of lines 113–121. -/
def activityKeys : List String :=
  ["warm_up", "vocab_cards", "mini_story", "phonics_focus", "practice",
   "wrap_up", "homework"]

/-- Line 122: `activities = {k: _norm_activity(k) for k in activity_keys}`,
evaluated left to right. -/
def normActivities (obj : List (String × PyVal)) :
    List String → Except String (List (String × PyVal))
  | [] => Except.ok []
  | k :: ks => do
    let a ← normActivity obj k
    let rest ← normActivities obj ks
    pure ((k, a) :: rest)

/-- Lines 128–141: normalization of one entry of a nonempty `plan` list
(non-dict entries are skipped by `planFromList`). -/
def planStep (step : List (String × PyVal)) : Except String PyVal := do
  let name := pyOr (pyGet step "name") (pyOr (pyGet step "title") (.str "Étape"))
  let minutes0 := pyOr (pyGet step "minutes")
      (pyOr (pyGet step "duration") (pyOr (pyGet step "duration_minutes") (.str "")))
  let minutes := if isNum minutes0 then PyVal.str (toString (pyIntOfNum minutes0))
    else minutes0
  let ts := pyGet step "teacher_script"
  let script ←
    if truthy ts then pure ts
    else
      let sc := pyGet step "script"
      if truthy sc then pure sc
      else do
        let third ← (match pyGet step "steps" with
          | .list steps => do
              let j ← pyJoin " • " steps
              pure (PyVal.str j)
          | _ => pure (pyGet step "description"))
        if truthy third then pure third else pure (PyVal.str "")
  pure (.dict [("name", name), ("minutes", minutes), ("teacher_script", script)])

/-- Lines 128–141: the loop over a nonempty plan-like list. -/
def planFromList : List PyVal → Except String (List PyVal)
  | [] => Except.ok []
  | .dict d :: rest => do
    let e ← planStep d
    let tail ← planFromList rest
    pure (e :: tail)
  | _ :: rest => planFromList rest

/-- Lines 143–146: the fallback plan built from activity blocks that carry a
truthy `teacher_script` or `minutes`. -/
def planFallback (acts : List (String × PyVal)) : List PyVal :=
  (acts.filter (fun p =>
    truthy (pyGet (match p.2 with | .dict d => d | _ => []) "teacher_script")
      || truthy (pyGet (match p.2 with | .dict d => d | _ => []) "minutes"))).map
    (fun p => p.2)

/-- Lines 124–146: plan normalization (`plan`/`activities`/`sections`, list
branch only when nonempty). -/
def normPlan (obj : List (String × PyVal)) (acts : List (String × PyVal)) :
    Except String (List PyVal) :=
  match pyOr (pyGet obj "plan")
      (pyOr (pyGet obj "activities") (pyOr (pyGet obj "sections") (.list []))) with
  | .list (s :: ss) => planFromList (s :: ss)
  | _ => Except.ok (planFallback acts)

/-- Lines 152–158: one `image_prompts` entry at enumerate-index `i`; returns
`Option.none` when the entry is dropped (no derivable prompt). -/
def ipEntry (d : List (String × PyVal)) (i : Nat) :
    Except String (Option PyVal) := do
  let prompt0 := pyOr (pyGet d "prompt") (pyGet d "image_prompt")
  let prompt ←
    if truthy prompt0 then pure prompt0
    else match pyGet d "bullets" with
      | .list bs => do
          let j ← pyJoin ", " (bs.take 3)
          pure (PyVal.str ("Illustration pour: " ++ j))
      | _ => pure prompt0
  if truthy prompt then
    pure (Option.some (.dict
      [("id", pyOr (pyGet d "id") (.str ("img" ++ Nat.repr (i + 1)))),
       ("prompt", prompt)]))
  else pure Option.none

/-- Lines 151–158: the `enumerate` loop over `image_prompts_in` (non-dict
entries skipped, the index still advancing). -/
def ipFromList : List PyVal → Nat → Except String (List PyVal)
  | [], _ => Except.ok []
  | .dict d :: rest, i => do
    let e ← ipEntry d i
    let tail ← ipFromList rest (i + 1)
    pure (match e with | Option.some v => v :: tail | Option.none => tail)
  | _ :: rest, i => ipFromList rest (i + 1)

/-- Lines 148–158: image-prompt normalization. -/
def normImagePrompts (obj : List (String × PyVal)) :
    Except String (List PyVal) :=
  match pyOr (pyGet obj "image_prompts")
      (pyOr (pyGet obj "imagePrompts") (pyOr (pyGet obj "slides") (.list []))) with
  | .list l => ipFromList l 0
  | _ => Except.ok []

/-- Lines 160–162: first tutor messages, defaulting to a greeting built with
the resolved title (`f"Bonjour ! {title}"` uses `str(title)`). -/
def normFTM (obj : List (String × PyVal)) (title : PyVal) : List PyVal :=
  match pyOr (pyGet obj "first_tutor_messages")
      (pyOr (pyGet obj "firstTutorMessages") (.list [])) with
  | .list (m :: ms) => m :: ms
  | _ => [.str ("Bonjour ! " ++ pyStr title)]

/-- Lines 66–173: `_normalize_to_strict_schema(obj)`.  Returns the entries of
the result dict in insertion order (seven canonical keys, then the seven
activity blocks added by `result.update(activities)`); `raise ValueError` and
an uncaught `TypeError` from `str.join` are modelled by `Except.error`. -/
def normalizeLesson (obj : List (String × PyVal)) :
    Except String (List (String × PyVal)) :=
  if (normObjectives obj).length < 2 || 3 < (normObjectives obj).length then
    Except.error "Expected 2-3 objectives"
  else if (normMaterials obj).isEmpty then Except.error "Materials list required"
  else
    match normActivities obj activityKeys with
    | Except.error e => Except.error e
    | Except.ok acts =>
      match normPlan obj acts with
      | Except.error e => Except.error e
      | Except.ok planOut =>
        match normImagePrompts obj with
        | Except.error e => Except.error e
        | Except.ok ips =>
          Except.ok ([("title", normTitle obj), ("duration", normDuration obj),
            ("objectives", .list (normObjectives obj)),
            ("materials", .list (normMaterials obj)),
            ("plan", .list planOut), ("image_prompts", .list ips),
            ("first_tutor_messages", .list (normFTM obj (normTitle obj)))] ++
            acts)

/-! ## Text chunker (`chunk_text`, app/ingest.py)

Python strings are modelled as `List Char` here, so that `len` is
`List.length` and regex scanning is explicit character recursion. -/

/-- Helper of `re.sub(r"\n\x7b3,\x7d", "\n\n", s)`: `k` counts the pending run
of newlines; a run of `k` newlines is emitted as `min k 2` newlines, which
collapses runs of three or more to exactly two and keeps shorter runs. -/
def normNLGo (k : Nat) : List Char → List Char
  | [] => List.replicate (min k 2) '\n'
  | c :: rest =>
    if c == '\n' then normNLGo (k + 1) rest
    else List.replicate (min k 2) '\n' ++ c :: normNLGo 0 rest

/-- Line 33: `re.sub(r"\n\x7b3,\x7d", "\n\n", s)`. -/
def pyNormNewlines (l : List Char) : List Char :=
  normNLGo 0 l

/-- The sentence-boundary punctuation of the lookbehind `[\.\?\!\:]`. -/
def isSentencePunct (c : Char) : Bool :=
  c == '.' || c == '?' || c == '!' || c == ':'

/-- Helper of `re.split(r"(?<=[\.\?\!\:])\s+", s)`.  `acc` holds the current
piece reversed; a maximal whitespace run whose preceding character is sentence
punctuation is consumed (`skipping` state) and splits the string there. -/
def splitGo : Bool → List Char → List Char → List (List Char)
  | _, [], acc => [acc.reverse]
  | skipping, c :: rest, acc =>
    if skipping then
      if isPySpace c then splitGo true rest []
      else splitGo false rest [c]
    else if isPySpace c &&
        (match acc.head? with
         | Option.some p => isSentencePunct p
         | Option.none => false) then
      acc.reverse :: splitGo true rest []
    else splitGo false rest (c :: acc)

/-- Line 34: `sentences = re.split(r"(?<=[\.\?\!\:])\s+", s)`. -/
def splitSentences (l : List Char) : List (List Char) :=
  splitGo false l []

/-- Lines 36–42: the greedy accumulation loop; returns `buf` with the final
`cur` flushed.  `min_len`/`max_len` are Python ints, hence `Int`. -/
def chunkGo (minl maxl : Int) : List (List Char) → List Char → List (List Char)
  | [], cur => if cur.isEmpty then [] else [cur]
  | sent :: rest, cur =>
    if (cur.length : Int) + (sent.length : Int) < maxl then
      chunkGo minl maxl rest (pyStripChars (cur ++ ' ' :: sent))
    else if minl ≤ (cur.length : Int) then
      cur :: chunkGo minl maxl rest sent
    else
      chunkGo minl maxl rest (pyStripChars (cur ++ ' ' :: sent))

/-- Lines 31–43: `chunk_text(s, min_len, max_len)`. -/
def chunk_text (s : List Char) (minl maxl : Int) : List (List Char) :=
  ((chunkGo minl maxl (splitSentences (pyStripChars (pyNormNewlines s))) []).map
      pyStripChars).filter (fun c => !c.isEmpty)

/-! ## OCR confidence gate and polling (app/ocr_abbyy.py) -/

/-- Models `_avg_conf_from_xml` applied to the numeric values of the
`confidence="NN"` attributes found in the result XML (the `xmltodict`
fallback reads the same attribute); `1.0` when no confidences are present. -/
def avg_conf (vals : List Rat) : Rat :=
  if vals.isEmpty then 1
  else (vals.map (fun v => v / 100)).sum / (vals.length : Rat)

/-- Models lines 130–147 of `ocr_file_to_text`: given the downloaded plain
text and the confidence values of the XML artifact, either strip and return
the text, or — when the mean confidence is below `minConf` (`OCR_MIN_CONF`,
default 0.85) — abort via `sys.exit(3)`, modelled as `Except.error 3`. -/
def ocr_gate (txt : String) (confVals : List Rat) (minConf : Rat) :
    Except Nat String :=
  if avg_conf confVals < minConf then Except.error 3
  else Except.ok (pyStripStr txt)

/-- The terminal ABBYY task statuses of line 54. -/
def terminalOcrStatus (s : String) : Bool :=
  s == "Completed" || s == "ProcessingFailed" || s == "NotEnoughCredits"

/-- Result of the polling loop of `_poll_task`. -/
inductive PollResult where
  | finished (st : String)
  | timedOut
  | fuelOut
deriving Repr, DecidableEq

/-- Lines 41–59: the `while waited < timeout` loop of `_poll_task`.
`statuses r` is the status reported by the remote service at the `r`-th poll;
`fuel` is an upper bound on the number of iterations, a modelling artifact:
`poll_task_terminates` shows the `fuelOut` branch is unreachable from the
initial state, so the fuelled function is total exactly like the loop. -/
def pollGo (statuses : Nat → String) (timeout : Rat) :
    Nat → Nat → Rat → Rat → PollResult
  | fuel, round, waited, delay =>
    if waited < timeout then
      match fuel with
      | 0 => .fuelOut
      | fuel' + 1 =>
        if terminalOcrStatus (statuses round) then .finished (statuses round)
        else pollGo statuses timeout fuel' (round + 1) (waited + delay)
            (min 10 (delay * 1.2))
    else .timedOut

/-- Lines 41–59: `_poll_task` with its default budget `timeout=180`,
initial delay `3.0`, initial `waited = 0.0`; 61 iterations are enough
(the inter-poll delay never drops below 3 seconds). -/
def poll_task (statuses : Nat → String) : PollResult :=
  pollGo statuses 180 61 0 0 3

/-! ## Job pipeline (app/main.py `create_lesson` / `get_lesson`,
app/tasks.py `process_lesson`) -/

/-- Python `s.lstrip("/")`. -/
def lstripSlash (s : String) : String :=
  String.mk (s.data.dropWhile (fun c => c == '/'))

/-- One row of the `lessons` table, as written by this code. -/
structure LessonRow where
  child_id : String
  uploaded_file_path : String
  status : String
  ocr_text : Option String
  lesson_data : Option PyVal
deriving Repr

/-- Outcome of the `POST /api/lessons` route. -/
inductive CreateOutcome where
  | badRequest (msg : String) (code : Nat)
  | enqueueFailed (row : LessonRow) (code : Nat)
  | accepted (row : LessonRow) (respStatus : String) (code : Nat)
deriving Repr

/-- Lines 77–116 of app/main.py: `create_lesson`.  The Supabase insert is
modelled as returning the inserted row; `enqueueOk` tells whether
`process_lesson.delay` raised.  The row is inserted with status
`"processing"` and the 202 response carries `"status": "processing"`. -/
def create_lesson (childId filePath : String) (enqueueOk : Bool) :
    CreateOutcome :=
  let c := pyStripStr childId
  let f := lstripSlash (pyStripStr filePath)
  if c == "" || f == "" then
    .badRequest "child_id and file_path are required" 400
  else
    let row : LessonRow :=
      { child_id := c, uploaded_file_path := f, status := "processing",
        ocr_text := Option.none, lesson_data := Option.none }
    if enqueueOk then .accepted row "processing" 202
    else .enqueueFailed { row with status := "error" } 500

/-- Lines 81–316 of app/tasks.py: the worker `process_lesson`, abstracted over
`outcome`, the result of steps 1–3 (download, OCR/describe, lesson
generation): `.ok (text, lessonJson)` when no exception was raised, `.error
msg` when an unhandled exception with message `msg` occurred anywhere.  On
success the row receives `ocr_text` (trimmed to 10000 chars), `lesson_data`
and status `"completed"`; on exception the `except` block writes only
`{"status": "error"}` — the exception message is logged, never persisted. -/
def process_lesson (row : LessonRow) (outcome : Except String (String × PyVal)) :
    LessonRow :=
  match outcome with
  | Except.ok (text, lessonJson) =>
    { row with ocr_text := Option.some (text.take 10000),
               lesson_data := Option.some lessonJson, status := "completed" }
  | Except.error _ => { row with status := "error" }

/-- Converts an optional string column to the JSON the route serializes. -/
def optStrVal : Option String → PyVal
  | Option.none => PyVal.none
  | Option.some s => .str s

/-- Converts an optional JSON column to the JSON the route serializes. -/
def optJsonVal : Option PyVal → PyVal
  | Option.none => PyVal.none
  | Option.some v => v

/-- Lines 120–140 of app/main.py: `get_lesson`.  `rows` is the result of the
select by id.  The response dict has exactly the keys `id`, `status` and
`lesson` — the route never reads or returns an error message column. -/
def get_lesson (rows : List (String × LessonRow)) (lessonId : String) :
    Except (String × Nat) PyVal :=
  match rows.find? (fun p => p.1 == lessonId) with
  | Option.none => Except.error ("not found", 404)
  | Option.some (id, row) =>
    Except.ok (.dict [("id", .str id), ("status", .str row.status),
      ("lesson", .dict [("ocr_text", optStrVal row.ocr_text),
                        ("lesson_data", optJsonVal row.lesson_data)])])

/-! ## Image-URL enforcement (`_force_image_urls`, app/tasks.py lines 43–78) -/

/-- The caption injected by `_force_image_urls`. -/
def defaultCaption : String := "Regarde l\x27image et dis ce que tu vois."

/-- Python `step.get("type") == "image"`. -/
def isImageType : PyVal → Bool
  | .str s => s == "image"
  | _ => false

/-- Lines 53–68: the `for step in ui` loop.  Returns the rewritten steps and
the final `has_image` flag.  Non-dict steps are skipped; a step of type
`"image"` gets `image_url`/default caption; a step with a nonempty `images`
list is reduced to its first entry with `url` forced. -/
def forceSteps (url : String) : List PyVal → List PyVal × Bool
  | [] => ([], false)
  | step :: rest =>
    let r := forceSteps url rest
    match step with
    | .dict d =>
      let typeImage := isImageType (pyGet d "type")
      let d1 := if typeImage then
          dictSetDefault (dictSet d "image_url" (.str url)) "caption"
            (.str defaultCaption)
        else d
      (match pyGet d1 "images" with
       | .list (i0 :: rest0) =>
         let first := match i0 with | .dict fd => fd | _ => []
         let fd1 := dictRemove (dictSet first "url" (.str url)) "image_url"
         (.dict (dictSet d1 "images" (.list [.dict fd1])) :: r.1, true)
       | _ => (.dict d1 :: r.1, typeImage || r.2))
    | v => (v :: r.1, r.2)

/-- Lines 70–75: the image step injected when no image reference exists. -/
def imageStepDefault (url : String) : PyVal :=
  .dict [("type", .str "image"), ("image_url", .str url),
         ("caption", .str defaultCaption)]

/-- Lines 43–78: `_force_image_urls(lesson_json, url)`.  When `ui_steps` is a
truthy non-list the Python code raises (`AttributeError` on `insert` for
`str`/`dict`, `TypeError` at the `for` loop for other scalars); both are
modelled as `Except.error`. -/
def force_image_urls (lesson : List (String × PyVal)) (url : String) :
    Except String (List (String × PyVal)) :=
  match pyOr (pyGet lesson "ui_steps") (.list []) with
  | .list l =>
    let r := forceSteps url l
    let ui := if r.2 then r.1 else imageStepDefault url :: r.1
    Except.ok (dictSet lesson "ui_steps" (.list ui))
  | .str _ => Except.error "AttributeError: str has no attribute insert"
  | .dict _ => Except.error "AttributeError: dict has no attribute insert"
  | _ => Except.error "TypeError: object is not iterable"

/-! ## Decimal representation helper

Used to reason about the ids `f"img\x7bi+1\x7d"` synthesized by the
normalizer: `Nat.repr` is injective. -/

/-- The decimal digits of `n`, most significant first. -/
def decChars (n : Nat) : List Char :=
  if h : n < 10 then [Nat.digitChar n]
  else decChars (n / 10) ++ [Nat.digitChar (n % 10)]
decreasing_by
  exact Nat.div_lt_self (by omega) (by omega)

/-! ## Statement helpers -/

/-- The sentence list `chunk_text` works on (line 33–34 preprocessing). -/
def sentencesOfText (s : List Char) : List (List Char) :=
  splitSentences (pyStripChars (pyNormNewlines s))

/-- Maximum length of a list of strings, as an integer. -/
def maxLenOf (ls : List (List Char)) : Int :=
  ls.foldr (fun l acc => max (l.length : Int) acc) 0

/-- Chunks re-joined with a single space (Python `" ".join`). -/
def joinSpace : List (List Char) → List Char
  | [] => []
  | [c] => c
  | c :: c2 :: rest => c ++ ' ' :: joinSpace (c2 :: rest)

/-- The seven activity entries of a normalized lesson, looked up by key. -/
def actsEntries (y : List (String × PyVal)) : List (String × PyVal) :=
  activityKeys.map (fun k => (k, pyGet y k))

/-- The entry list produced by a successful run of the normalizer: the seven
canonical fields in insertion order followed by the seven activity blocks. -/
def lessonShell (T D : PyVal) (O M P I F : List PyVal)
    (a1 a2 a3 a4 a5 a6 a7 : PyVal) : List (String × PyVal) :=
  [("title", T), ("duration", D), ("objectives", .list O),
   ("materials", .list M), ("plan", .list P), ("image_prompts", .list I),
   ("first_tutor_messages", .list F),
   ("warm_up", a1), ("vocab_cards", a2), ("mini_story", a3),
   ("phonics_focus", a4), ("practice", a5), ("wrap_up", a6),
   ("homework", a7)]

/-- The entries of the `plan` field of a normalized lesson. -/
def planVals (y : List (String × PyVal)) : List PyVal :=
  match pyGet y "plan" with
  | .list l => l
  | _ => []

/-- The entries of the `image_prompts` field of a normalized lesson. -/
def ipVals (y : List (String × PyVal)) : List PyVal :=
  match pyGet y "image_prompts" with
  | .list l => l
  | _ => []

/-- The list the image-prompt loop of the normalizer iterates over
(`image_prompts` / `imagePrompts` / `slides`, empty when not a list). -/
def ipInputList (x : List (String × PyVal)) : List PyVal :=
  match pyOr (pyGet x "image_prompts")
      (pyOr (pyGet x "imagePrompts") (pyOr (pyGet x "slides") (.list []))) with
  | .list l => l
  | _ => []

/-- The `id` of an image-prompt entry. -/
def idOf (v : PyVal) : PyVal :=
  match v with
  | .dict d => pyGet d "id"
  | _ => PyVal.none

/-- Whether a value is the Python string `s`. -/
def isStrEqVal (v : PyVal) (s : String) : Bool :=
  match v with
  | .str t => t == s
  | _ => false

/-- The `ui_steps` list of a lesson dict. -/
def uiStepsOf (y : List (String × PyVal)) : List PyVal :=
  match pyGet y "ui_steps" with
  | .list l => l
  | _ => []

/-- Whether some step of `steps` references image URL `url`: either a step of
type `"image"` whose `image_url` equals `url`, or a step whose `images` list
has a first entry (a dict) whose `url` equals `url`. -/
def hasImageRef (url : String) (steps : List PyVal) : Bool :=
  steps.any (fun step =>
    match step with
    | .dict d =>
      (isImageType (pyGet d "type") && isStrEqVal (pyGet d "image_url") url)
        || (match pyGet d "images" with
            | .list (.dict fd :: _) => isStrEqVal (pyGet fd "url") url
            | _ => false)
    | _ => false)

/-- A string is clean when it neither starts nor ends with whitespace. -/
def CleanStr (l : List Char) : Prop :=
  (∀ c, l.head? = some c → isPySpace c = false) ∧
    (∀ c, l.getLast? = some c → isPySpace c = false)

/-- Shape invariant of the plan entries and activity blocks produced by the
normalizer: a three-key dict with truthy name, non-numeric minutes that is
`""` when falsy, and a teacher script that is `""` when falsy. -/
def StepOK (v : PyVal) : Prop :=
  ∃ n m t, v = PyVal.dict
      [("name", n), ("minutes", m), ("teacher_script", t)] ∧
    truthy n = true ∧ isNum m = false ∧ (truthy m = false → m = .str "") ∧
    (truthy t = false → t = .str "")

/-- Shape invariant of normalized image-prompt entries: an `id`/`prompt` dict
with both values truthy. -/
def IpOK (v : PyVal) : Prop :=
  ∃ idv pr, v = PyVal.dict [("id", idv), ("prompt", pr)] ∧
    truthy idv = true ∧ truthy pr = true

/-! ## Basic lemmas -/

theorem pyOr_pos {a : PyVal} (b : PyVal) (h : truthy a = true) : pyOr a b = a := by
  simp [pyOr, h]

theorem pyOr_neg {a : PyVal} (b : PyVal) (h : truthy a = false) : pyOr a b = b := by
  simp [pyOr, h]

theorem truthy_pyOr (a b : PyVal) : truthy (pyOr a b) = (truthy a || truthy b) := by
  by_cases h : truthy a = true
  · simp [pyOr, h]
  · simp only [Bool.not_eq_true] at h
    simp [pyOr, h]

theorem pyOr_eq_of_not_truthy {a b : PyVal} (h : truthy (pyOr a b) = false) :
    pyOr a b = b := by
  rcases Bool.eq_false_or_eq_true (truthy a) with ha | ha
  · rw [pyOr_pos b ha] at h
    rw [h] at ha
    cases ha
  · exact pyOr_neg b ha

/-! ## Injectivity of `Nat.repr`

Needed for the synthesized image-prompt ids `"img" ++ Nat.repr (i+1)`. -/

theorem decChars_base {n : Nat} (h : n < 10) : decChars n = [Nat.digitChar n] := by
  rw [decChars]
  simp [h]

theorem decChars_step {n : Nat} (h : ¬ n < 10) :
    decChars n = decChars (n / 10) ++ [Nat.digitChar (n % 10)] := by
  rw [decChars]
  simp [h]

theorem decChars_ne_nil (n : Nat) : decChars n ≠ [] := by
  by_cases h : n < 10
  · rw [decChars_base h]
    simp
  · rw [decChars_step h]
    simp

theorem decChars_length_ge {n : Nat} (h : ¬ n < 10) : 2 ≤ (decChars n).length := by
  rw [decChars_step h, List.length_append]
  have h2 := decChars_ne_nil (n / 10)
  have h3 : 0 < (decChars (n / 10)).length := List.length_pos.mpr h2
  simp only [List.length_singleton]
  omega

theorem digitChar_inj (a b : Nat) (ha : a < 10) (hb : b < 10) :
    Nat.digitChar a = Nat.digitChar b → a = b := by
  interval_cases a <;> interval_cases b <;> decide

theorem append_singleton_inj {α : Type} {xs ys : List α} {a b : α}
    (h : xs ++ [a] = ys ++ [b]) : xs = ys ∧ a = b := by
  have h2 := congrArg List.reverse h
  simp only [List.reverse_append, List.reverse_singleton, List.singleton_append] at h2
  obtain ⟨h3, h4⟩ := List.cons.injEq a xs.reverse b ys.reverse ▸ h2
  exact ⟨List.reverse_injective h4, h3⟩

theorem decChars_inj (m : Nat) : ∀ n, decChars m = decChars n → m = n := by
  induction m using Nat.strong_induction_on with
  | _ m ih =>
    intro n h
    by_cases hm : m < 10 <;> by_cases hn : n < 10
    · rw [decChars_base hm, decChars_base hn] at h
      exact digitChar_inj m n hm hn (List.singleton_inj.mp h)
    · exfalso
      have h2 := congrArg List.length h
      rw [decChars_base hm] at h2
      have h3 := decChars_length_ge hn
      simp at h2
      omega
    · exfalso
      have h2 := congrArg List.length h
      rw [decChars_base hn] at h2
      have h3 := decChars_length_ge hm
      simp at h2
      omega
    · rw [decChars_step hm, decChars_step hn] at h
      obtain ⟨h1, h2⟩ := append_singleton_inj h
      have hdiv : m / 10 = n / 10 :=
        ih (m / 10) (Nat.div_lt_self (by omega) (by omega)) (n / 10) h1
      have hmod : m % 10 = n % 10 :=
        digitChar_inj _ _ (Nat.mod_lt m (by omega)) (Nat.mod_lt n (by omega)) h2
      omega

theorem toDigitsCore_eq_decChars :
    ∀ (fuel n : Nat) (acc : List Char), n < fuel →
      Nat.toDigitsCore 10 fuel n acc = decChars n ++ acc := by
  intro fuel
  induction fuel with
  | zero => intro n acc h; omega
  | succ fuel ih =>
    intro n acc h
    rw [Nat.toDigitsCore]
    by_cases h10 : n < 10
    · have hz : n / 10 = 0 := Nat.div_eq_of_lt h10
      simp only [hz, if_true]
      rw [decChars_base h10, Nat.mod_eq_of_lt h10]
      rfl
    · have hz : ¬ n / 10 = 0 := by
        intro hc
        omega
      simp only [hz, if_false]
      rw [ih (n / 10) _ (by
        have : n / 10 < n := Nat.div_lt_self (by omega) (by omega)
        omega)]
      rw [decChars_step h10, List.append_assoc]
      rfl

theorem natRepr_eq_decChars (n : Nat) : Nat.repr n = (decChars n).asString := by
  show (Nat.toDigits 10 n).asString = (decChars n).asString
  rw [Nat.toDigits, toDigitsCore_eq_decChars (n + 1) n [] (by omega),
    List.append_nil]

theorem natRepr_inj {m n : Nat} (h : Nat.repr m = Nat.repr n) : m = n := by
  rw [natRepr_eq_decChars, natRepr_eq_decChars] at h
  apply decChars_inj
  have := congrArg String.data h
  simpa [List.asString] using this

theorem img_id_inj {m n : Nat} (h : "img" ++ Nat.repr m = "img" ++ Nat.repr n) :
    m = n := by
  apply natRepr_inj
  have h2 := congrArg String.data h
  simp only [String.data_append] at h2
  have h3 := List.append_cancel_left h2
  cases hm : Nat.repr m with
  | mk l =>
    cases hn : Nat.repr n with
    | mk l2 =>
      rw [hm, hn] at h3
      simp_all

/-! ## Claim C1 — OCR confidence gate -/

/-- C1 (corrected): at or above the threshold the gate returns the fetched
text stripped of surrounding whitespace (hence unchanged when already
trimmed); below the threshold it does NOT return the empty string — the
deployed policy is the hard stop `sys.exit(3)` (modelled as
`Except.error 3`). -/
theorem ocr_gate_behavior (txt : String) (confVals : List Rat) (minConf : Rat) :
    (minConf ≤ avg_conf confVals →
      ocr_gate txt confVals minConf = Except.ok (pyStripStr txt)) ∧
    (avg_conf confVals < minConf →
      ocr_gate txt confVals minConf = Except.error 3) := by
  constructor
  · intro h
    rw [ocr_gate, if_neg (not_lt.mpr h)]
  · intro h
    rw [ocr_gate, if_pos h]

/-- Witness for C1: mean confidence 0.90 against threshold 0.85 returns the
provided text unchanged. -/
theorem ocr_gate_behavior_witness :
    (17 / 20 : Rat) ≤ avg_conf [90] ∧
      ocr_gate "Bonjour" [90] (17 / 20) = Except.ok "Bonjour" := by
  have h : avg_conf [90] = 9 / 10 := by norm_num [avg_conf]
  refine ⟨by rw [h]; norm_num, ?_⟩
  have h2 := (ocr_gate_behavior "Bonjour" [90] (17 / 20)).1 (by rw [h]; norm_num)
  rw [h2]
  rfl

/-- Counterexample for C1 as stated: with confidence 0.50 and threshold 0.85
the gate does not return the empty string — it exits with code 3. -/
theorem ocr_gate_soft_fail_cex :
    ocr_gate "Bonjour" [50] (17 / 20) = Except.error 3 ∧
      ocr_gate "Bonjour" [50] (17 / 20) ≠ Except.ok "" := by
  have h : avg_conf [50] = 1 / 2 := by norm_num [avg_conf]
  have h2 : ocr_gate "Bonjour" [50] (17 / 20) = Except.error 3 := by
    rw [ocr_gate, h]
    norm_num
  exact ⟨h2, by rw [h2]; simp⟩

/-! ## Claim C2 — normalizer totality -/

/-- C2 (corrected): the normalizer is NOT total on JSON objects.
`normalize(\x7b\x7d)` raises `ValueError("Expected 2-3 objectives")`, because
the defaulted empty objectives list fails the 2–3 length check of
mimi.py line 86 (and an empty materials list would likewise raise at
line 95). -/
theorem normalize_empty_raises :
    normalizeLesson [] = Except.error "Expected 2-3 objectives" := by
  rfl

/-- Counterexample for C2 as stated: `normalize(\x7b\x7d)` does not return a
Lesson at all. -/
theorem normalize_totality_cex : (normalizeLesson []).isOk = false := by
  rfl

/-! ## Claim C3 — job states -/

/-- C3 (corrected): job creation inserts the row with status `"processing"`
(not `"queued"`) and the 202 response carries `"status": "processing"`; a
poll performed before the worker runs therefore reports `"processing"`; after
the worker finishes the status is exactly one of `"completed"`/`"error"`. -/
theorem job_states (childId filePath jobId : String) (row : LessonRow)
    (respStatus : String) (code : Nat)
    (h : create_lesson childId filePath true = .accepted row respStatus code)
    (outcome : Except String (String × PyVal)) :
    row.status = "processing" ∧ respStatus = "processing" ∧ code = 202 ∧
    get_lesson [(jobId, row)] jobId =
      Except.ok (.dict [("id", .str jobId), ("status", .str "processing"),
        ("lesson", .dict [("ocr_text", optStrVal row.ocr_text),
                          ("lesson_data", optJsonVal row.lesson_data)])]) ∧
    ((process_lesson row outcome).status = "completed" ∨
      (process_lesson row outcome).status = "error") := by
  rw [create_lesson] at h
  split at h
  · cases h
  · injection h with h1 h2 h3
    subst h1
    subst h2
    subst h3
    refine ⟨rfl, rfl, rfl, ?_, ?_⟩
    · rw [get_lesson]
      simp
    · cases outcome with
      | ok p =>
        obtain ⟨t, j⟩ := p
        left
        rfl
      | error e => right; rfl

/-- Witness for C3 at a concrete creation request. -/
theorem job_states_witness :
    (⟨"123", "bucket/file.pdf", "processing", Option.none, Option.none⟩ :
        LessonRow).status = "processing" ∧
      ("processing" : String) = "processing" ∧ (202 : Nat) = 202 ∧
      get_lesson [("42",
          (⟨"123", "bucket/file.pdf", "processing", Option.none,
            Option.none⟩ : LessonRow))] "42" =
        Except.ok (.dict [("id", .str "42"), ("status", .str "processing"),
          ("lesson", .dict [("ocr_text", optStrVal Option.none),
                            ("lesson_data", optJsonVal Option.none)])]) ∧
      ((process_lesson
          ⟨"123", "bucket/file.pdf", "processing", Option.none, Option.none⟩
          (Except.error "boom")).status = "completed" ∨
        (process_lesson
          ⟨"123", "bucket/file.pdf", "processing", Option.none, Option.none⟩
          (Except.error "boom")).status = "error") :=
  job_states "123" "bucket/file.pdf" "42"
    ⟨"123", "bucket/file.pdf", "processing", Option.none, Option.none⟩
    "processing" 202 rfl (Except.error "boom")

/-- Counterexample for C3 as stated: immediately after create the status is
`"processing"`, never `"queued"`. -/
theorem job_create_status_cex :
    create_lesson "123" "bucket/file.pdf" true =
      .accepted ⟨"123", "bucket/file.pdf", "processing", Option.none,
        Option.none⟩ "processing" 202 ∧
      ("processing" : String) ≠ "queued" := by
  exact ⟨rfl, by decide⟩

/-! ## Claim C7 — error capture and polling -/

/-- C7 (corrected): on an unhandled exception the worker transitions the job
to the terminal `"error"` state, but it does NOT capture the message: the
`except` block writes only `\x7b"status": "error"\x7d`, and the poll response
contains exactly the keys `id`, `status` and `lesson` — the exception message
`e` appears nowhere in it (so no stack trace is exposed either, vacuously). -/
theorem job_error_state (row : LessonRow) (e : String) (jobId : String) :
    (process_lesson row (Except.error e)).status = "error" ∧
    get_lesson [(jobId, process_lesson row (Except.error e))] jobId =
      Except.ok (.dict [("id", .str jobId), ("status", .str "error"),
        ("lesson", .dict [("ocr_text", optStrVal row.ocr_text),
                          ("lesson_data", optJsonVal row.lesson_data)])]) := by
  refine ⟨rfl, ?_⟩
  rw [get_lesson]
  simp [process_lesson]

/-- Counterexample for C7 as stated: polling a failed job yields a response
bearing no error message at all (keys `id`, `status`, `lesson` only — the
captured exception text "boom" is absent). -/
theorem job_error_message_cex :
    get_lesson [("42", process_lesson
        ⟨"c", "f", "processing", Option.none, Option.none⟩
        (Except.error "boom"))] "42" =
      Except.ok (.dict [("id", .str "42"), ("status", .str "error"),
        ("lesson", .dict [("ocr_text", PyVal.none),
                          ("lesson_data", PyVal.none)])]) := by
  rfl

/-! ## Claim C9 — polling loop termination -/

theorem pollGo_min_delay {delay : Rat} (h : 3 ≤ delay) :
    (3 : Rat) ≤ min 10 (delay * 1.2) := by
  refine le_min (by norm_num) ?_
  nlinarith

theorem pollGo_no_fuelOut (statuses : Nat → String) :
    ∀ (fuel round : Nat) (waited delay : Rat), 3 ≤ delay →
      (180 : Rat) ≤ waited + 3 * fuel →
      pollGo statuses 180 fuel round waited delay ≠ .fuelOut := by
  intro fuel
  induction fuel with
  | zero =>
    intro round waited delay _ hbudget
    rw [pollGo]
    have : ¬ waited < 180 := by push_neg; simpa using hbudget
    simp [this]
  | succ fuel ih =>
    intro round waited delay hdelay hbudget
    rw [pollGo]
    by_cases hw : waited < 180
    · simp only [hw, if_true]
      by_cases ht : terminalOcrStatus (statuses round) = true
      · simp [ht]
      · simp only [Bool.not_eq_true] at ht
        simp only [ht, Bool.false_eq_true, if_false]
        apply ih
        · exact pollGo_min_delay hdelay
        · push_cast
          push_cast at hbudget
          linarith
    · simp [hw]

theorem pollGo_finished_terminal (statuses : Nat → String) :
    ∀ (fuel round : Nat) (waited delay : Rat) (st : String),
      pollGo statuses 180 fuel round waited delay = .finished st →
      terminalOcrStatus st = true := by
  intro fuel
  induction fuel with
  | zero =>
    intro round waited delay st h
    rw [pollGo] at h
    by_cases hw : waited < 180 <;> simp [hw] at h
  | succ fuel ih =>
    intro round waited delay st h
    rw [pollGo] at h
    by_cases hw : waited < 180
    · simp only [hw, if_true] at h
      by_cases ht : terminalOcrStatus (statuses round) = true
      · simp only [ht, if_true] at h
        injection h with h1
        rw [← h1]
        exact ht
      · simp only [Bool.not_eq_true] at ht
        simp only [ht, Bool.false_eq_true, if_false] at h
        exact ih _ _ _ _ h
    · simp [hw] at h

/-- C9 (confirmed): the polling loop always terminates.  The delay starts at
3 s, is multiplied by 1.2 and capped at 10 s each round, so it never drops
below 3 s and the accumulated wait crosses the 180 s budget within 61 polls;
the loop ends either at the first terminal remote status or, once the budget
is exceeded, with the hard `TimeoutError`. -/
theorem poll_task_terminates (statuses : Nat → String) :
    (∃ st, poll_task statuses = PollResult.finished st ∧
      terminalOcrStatus st = true) ∨
    poll_task statuses = PollResult.timedOut := by
  have hne : poll_task statuses ≠ .fuelOut := by
    apply pollGo_no_fuelOut statuses 61 0 0 3 (by norm_num)
    norm_num
  cases hr : poll_task statuses with
  | finished st =>
    left
    exact ⟨st, rfl, pollGo_finished_terminal statuses 61 0 0 3 st hr⟩
  | timedOut => right; rfl
  | fuelOut => exact absurd hr hne

/-! ## Association-list lemmas for dict operations -/

theorem pyGet_cons (k1 : String) (v1 : PyVal) (rest : List (String × PyVal))
    (k : String) :
    pyGet ((k1, v1) :: rest) k = if k1 == k then v1 else pyGet rest k := by
  by_cases h : (k1 == k) = true <;> simp [pyGet, List.find?, h]

theorem pyHasKey_cons (k1 : String) (v1 : PyVal)
    (rest : List (String × PyVal)) (k : String) :
    pyHasKey ((k1, v1) :: rest) k = ((k1 == k) || pyHasKey rest k) := by
  simp [pyHasKey]

theorem pyGet_nil (k : String) : pyGet [] k = PyVal.none := rfl

theorem pyGet_append (d l2 : List (String × PyVal)) (k : String) :
    pyGet (d ++ l2) k = if pyHasKey d k then pyGet d k else pyGet l2 k := by
  induction d with
  | nil => simp [pyGet, pyHasKey]
  | cons p rest ih =>
    obtain ⟨k1, v1⟩ := p
    rw [List.cons_append, pyGet_cons, pyGet_cons, pyHasKey_cons]
    by_cases h : (k1 == k) = true
    · simp [h]
    · simp only [Bool.not_eq_true] at h
      simp [h, ih]

theorem pyGet_eq_none_of_not_has {d : List (String × PyVal)} {k : String}
    (h : pyHasKey d k = false) : pyGet d k = PyVal.none := by
  induction d with
  | nil => rfl
  | cons p rest ih =>
    obtain ⟨k1, v1⟩ := p
    rw [pyHasKey_cons] at h
    simp only [Bool.or_eq_false_iff] at h
    rw [pyGet_cons, h.1]
    simp only [Bool.false_eq_true, if_false]
    exact ih h.2

theorem pyGet_map_set (k : String) (v : PyVal) (d : List (String × PyVal)) :
    pyGet (d.map (fun p => if p.1 == k then (p.1, v) else p)) k =
      if pyHasKey d k then v else PyVal.none := by
  induction d with
  | nil => simp [pyGet, pyHasKey]
  | cons p rest ih =>
    obtain ⟨k1, v1⟩ := p
    by_cases h : k1 = k
    · subst h
      simp [pyGet_cons, pyHasKey_cons]
    · simp [pyGet_cons, pyHasKey_cons, h]
      simpa using ih

theorem pyGet_dictSet_self (d : List (String × PyVal)) (k : String)
    (v : PyVal) : pyGet (dictSet d k v) k = v := by
  rw [dictSet]
  by_cases h : pyHasKey d k
  · rw [if_pos h, pyGet_map_set, if_pos h]
  · rw [if_neg h, pyGet_append, if_neg h, pyGet_cons]
    simp

theorem pyGet_map_set_ne (d : List (String × PyVal)) {k k2 : String}
    (v : PyVal) (h : k ≠ k2) :
    pyGet (d.map (fun p => if p.1 == k then (p.1, v) else p)) k2 =
      pyGet d k2 := by
  induction d with
  | nil => simp
  | cons p rest ih =>
    obtain ⟨k1, v1⟩ := p
    by_cases h1 : k1 = k
    · subst h1
      simp [pyGet_cons, h]
      simpa using ih
    · by_cases h2 : k1 = k2
      · subst h2
        simp [pyGet_cons, h1]
      · simp [pyGet_cons, h1, h2]
        simpa using ih

theorem pyGet_dictSet_ne (d : List (String × PyVal)) {k k2 : String}
    (v : PyVal) (h : k ≠ k2) : pyGet (dictSet d k v) k2 = pyGet d k2 := by
  rw [dictSet]
  by_cases hk : pyHasKey d k
  · rw [if_pos hk, pyGet_map_set_ne d v h]
  · rw [if_neg hk, pyGet_append]
    by_cases h2 : pyHasKey d k2
    · rw [if_pos h2]
    · rw [if_neg h2, pyGet_cons]
      simp only [Bool.not_eq_true] at h2
      simp [h, pyGet_nil, pyGet_eq_none_of_not_has h2]

theorem pyGet_dictSetDefault_ne (d : List (String × PyVal)) {k k2 : String}
    (v : PyVal) (h : k ≠ k2) :
    pyGet (dictSetDefault d k v) k2 = pyGet d k2 := by
  rw [dictSetDefault]
  by_cases hk : pyHasKey d k
  · rw [if_pos hk]
  · rw [if_neg hk, pyGet_append]
    by_cases h2 : pyHasKey d k2
    · rw [if_pos h2]
    · rw [if_neg h2, pyGet_cons]
      simp only [Bool.not_eq_true] at h2
      simp [h, pyGet_nil, pyGet_eq_none_of_not_has h2]

theorem pyGet_dictRemove_ne (d : List (String × PyVal)) {k k2 : String}
    (h : k ≠ k2) : pyGet (dictRemove d k) k2 = pyGet d k2 := by
  rw [dictRemove]
  induction d with
  | nil => simp
  | cons p rest ih =>
    obtain ⟨k1, v1⟩ := p
    by_cases h1 : k1 = k
    · subst h1
      simp [List.eraseP_cons, pyGet_cons, h]
    · by_cases h2 : k1 = k2
      · subst h2
        simp [List.eraseP_cons, pyGet_cons, h1]
      · simp [List.eraseP_cons, pyGet_cons, h1, h2]
        simpa using ih

/-! ## Claim C10 — image-URL enforcement -/

theorem hasImageRef_cons (url : String) (step : PyVal) (rest : List PyVal) :
    hasImageRef url (step :: rest) =
      ((match step with
        | .dict d =>
          (isImageType (pyGet d "type") &&
              isStrEqVal (pyGet d "image_url") url)
            || (match pyGet d "images" with
                | .list (.dict fd :: _) => isStrEqVal (pyGet fd "url") url
                | _ => false)
        | _ => false)
        || hasImageRef url rest) := by
  rw [hasImageRef, hasImageRef, List.any_cons]

theorem forceSteps_dict_head (url : String) (d : List (String × PyVal))
    (rest : List PyVal) :
    forceSteps url (PyVal.dict d :: rest) =
      (let r := forceSteps url rest
       let typeImage := isImageType (pyGet d "type")
       let d1 := if typeImage then
           dictSetDefault (dictSet d "image_url" (.str url)) "caption"
             (.str defaultCaption)
         else d
       match pyGet d1 "images" with
       | .list (i0 :: _) =>
         let first := match i0 with | .dict fd => fd | _ => []
         let fd1 := dictRemove (dictSet first "url" (.str url)) "image_url"
         (.dict (dictSet d1 "images" (.list [.dict fd1])) :: r.1, true)
       | _ => (.dict d1 :: r.1, typeImage || r.2)) := by
  rw [forceSteps]

theorem forceSteps_image_head_ref (url : String)
    (d1 : List (String × PyVal)) (first : List (String × PyVal)) :
    (match pyGet (dictSet d1 "images"
        (.list [.dict (dictRemove (dictSet first "url" (.str url))
          "image_url")])) "images" with
      | PyVal.list (.dict fd :: _) => isStrEqVal (pyGet fd "url") url
      | _ => false) = true := by
  rw [pyGet_dictSet_self]
  have hurl : pyGet (dictRemove (dictSet first "url" (.str url)) "image_url")
      "url" = .str url := by
    rw [pyGet_dictRemove_ne _ (by decide), pyGet_dictSet_self]
  simp only [hurl]
  simp [isStrEqVal]

theorem forceSteps_has (url : String) :
    ∀ l : List PyVal, (forceSteps url l).2 = true →
      hasImageRef url (forceSteps url l).1 = true := by
  intro l
  induction l with
  | nil =>
    intro h
    rw [forceSteps] at h
    cases h
  | cons step rest ih =>
    have tailCase : ∀ s : PyVal, (forceSteps url rest).2 = true →
        hasImageRef url (s :: (forceSteps url rest).1) = true := by
      intro s h
      rw [hasImageRef_cons]
      simp [ih h]
    cases step with
    | dict d =>
      rw [forceSteps_dict_head]
      simp only
      split
      · intro _
        rw [hasImageRef_cons]
        simp only [Bool.or_eq_true]
        left
        right
        exact forceSteps_image_head_ref url _ _
      · intro h
        simp only [Bool.or_eq_true] at h
        rcases h with h | h
        · rw [hasImageRef_cons]
          simp only [Bool.or_eq_true]
          left
          left
          rw [Bool.and_eq_true]
          simp only [h, if_true]
          constructor
          · rw [pyGet_dictSetDefault_ne _ _ (by decide),
              pyGet_dictSet_ne _ _ (by decide)]
            exact h
          · rw [pyGet_dictSetDefault_ne _ _ (by decide), pyGet_dictSet_self]
            simp [isStrEqVal]
        · exact tailCase _ h
    | none =>
      simp only [forceSteps]
      exact fun h => tailCase _ h
    | bool b =>
      simp only [forceSteps]
      exact fun h => tailCase _ h
    | int n =>
      simp only [forceSteps]
      exact fun h => tailCase _ h
    | float q =>
      simp only [forceSteps]
      exact fun h => tailCase _ h
    | str s =>
      simp only [forceSteps]
      exact fun h => tailCase _ h
    | list l0 =>
      simp only [forceSteps]
      exact fun h => tailCase _ h

/-- C10 (corrected): whenever the lesson's `ui_steps` value is a list — or is
missing/falsy, in which case the loop runs over `[]` — `_force_image_urls`
succeeds and its result contains at least one image reference equal to `url`:
a step of type `"image"` with `image_url = url`, or a step whose `images`
list has a first (dict) entry with `url = url`; a fresh image step is
injected at the front when none exists.  (For a truthy non-list `ui_steps`
the function raises instead — see the counterexample.) -/
theorem force_image_urls_ensures (lesson : List (String × PyVal))
    (url : String)
    (h : (∃ l, pyGet lesson "ui_steps" = PyVal.list l) ∨
      truthy (pyGet lesson "ui_steps") = false) :
    ∃ y, force_image_urls lesson url = Except.ok y ∧
      hasImageRef url (uiStepsOf y) = true := by
  have hlist : ∃ l, pyOr (pyGet lesson "ui_steps") (.list []) = PyVal.list l := by
    rcases h with ⟨l, hl⟩ | hf
    · rw [hl]
      by_cases ht : truthy (PyVal.list l) = true
      · exact ⟨l, pyOr_pos _ ht⟩
      · simp only [Bool.not_eq_true] at ht
        exact ⟨[], pyOr_neg _ ht⟩
    · exact ⟨[], pyOr_neg _ hf⟩
  obtain ⟨l, hl⟩ := hlist
  refine ⟨dictSet lesson "ui_steps"
    (.list (if (forceSteps url l).2 then (forceSteps url l).1
      else imageStepDefault url :: (forceSteps url l).1)), ?_, ?_⟩
  · rw [force_image_urls, hl]
  · rw [uiStepsOf, pyGet_dictSet_self]
    by_cases hflag : (forceSteps url l).2 = true
    · simp only [hflag, if_true]
      exact forceSteps_has url l hflag
    · simp only [Bool.not_eq_true] at hflag
      simp only [hflag, Bool.false_eq_true, if_false]
      rw [hasImageRef_cons]
      simp only [imageStepDefault]
      rw [pyGet_cons]
      simp [isImageType, pyGet_cons, isStrEqVal]

/-- Witness for C10 at a concrete lesson whose only step is a note. -/
theorem force_image_urls_ensures_witness :
    ∃ y, force_image_urls
        [("ui_steps", .list [.dict [("type", .str "note")]])] "U" =
      Except.ok y ∧ hasImageRef "U" (uiStepsOf y) = true :=
  force_image_urls_ensures
    [("ui_steps", .list [.dict [("type", .str "note")]])] "U"
    (Or.inl ⟨[.dict [("type", .str "note")]], rfl⟩)

/-- Counterexample for C10 as stated: for a lesson whose `ui_steps` is a
truthy non-list (here the string `"x"`) the function raises instead of
returning a lesson. -/
theorem force_image_urls_cex :
    force_image_urls [("ui_steps", .str "x")] "U" =
      Except.error "AttributeError: str has no attribute insert" := by
  rfl

/-! ## Strip lemmas for the chunker -/

theorem dropWhile_head_not {p : Char → Bool} :
    ∀ {l : List Char} {c : Char}, (l.dropWhile p).head? = some c →
      p c = false := by
  intro l
  induction l with
  | nil => intro c h; cases h
  | cons a rest ih =>
    intro c h
    rw [List.dropWhile_cons] at h
    by_cases hp : p a = true
    · rw [if_pos hp] at h
      exact ih h
    · simp only [Bool.not_eq_true] at hp
      rw [hp] at h
      simp only [Bool.false_eq_true, if_false, List.head?_cons,
        Option.some.injEq] at h
      rw [← h]
      exact hp

theorem dropWhile_eq_self_of_head {p : Char → Bool} {l : List Char}
    (h : ∀ c, l.head? = some c → p c = false) : l.dropWhile p = l := by
  cases l with
  | nil => rfl
  | cons a rest =>
    rw [List.dropWhile_cons, h a rfl]
    simp

theorem getLast?_dropWhile {p : Char → Bool} :
    ∀ {l : List Char}, l.dropWhile p ≠ [] →
      (l.dropWhile p).getLast? = l.getLast? := by
  intro l
  induction l with
  | nil => intro h; simp at h
  | cons a rest ih =>
    intro h
    rw [List.dropWhile_cons] at h ⊢
    by_cases hp : p a = true
    · rw [if_pos hp] at h ⊢
      have hrest : rest ≠ [] := by
        intro hc
        rw [hc] at h
        simp at h
      obtain ⟨b, t, rfl⟩ : ∃ b t, rest = b :: t := by
        cases rest with
        | nil => exact absurd rfl hrest
        | cons b t => exact ⟨b, t, rfl⟩
      rw [ih h, List.getLast?_cons_cons]
    · simp only [Bool.not_eq_true] at hp
      rw [hp]
      simp

theorem length_pyStripChars_le (l : List Char) :
    (pyStripChars l).length ≤ l.length := by
  rw [pyStripChars]
  calc ((l.dropWhile isPySpace).reverse.dropWhile isPySpace).reverse.length
      = ((l.dropWhile isPySpace).reverse.dropWhile isPySpace).length := by
        rw [List.length_reverse]
    _ ≤ (l.dropWhile isPySpace).reverse.length :=
        (List.dropWhile_sublist isPySpace).length_le
    _ = (l.dropWhile isPySpace).length := by rw [List.length_reverse]
    _ ≤ l.length := (List.dropWhile_sublist isPySpace).length_le

theorem pyStripChars_of_clean {l : List Char} (h : CleanStr l) :
    pyStripChars l = l := by
  obtain ⟨h1, h2⟩ := h
  rw [pyStripChars, dropWhile_eq_self_of_head h1, dropWhile_eq_self_of_head]
  · rw [List.reverse_reverse]
  · intro c hc
    rw [List.head?_reverse] at hc
    exact h2 c hc

theorem clean_pyStripChars (l : List Char) : CleanStr (pyStripChars l) := by
  rw [pyStripChars]
  constructor
  · intro c hc
    rw [List.head?_reverse] at hc
    by_cases hne : (l.dropWhile isPySpace).reverse.dropWhile isPySpace = []
    · rw [hne] at hc
      cases hc
    · rw [getLast?_dropWhile hne, List.getLast?_reverse] at hc
      exact dropWhile_head_not hc
  · intro c hc
    rw [List.getLast?_reverse] at hc
    exact dropWhile_head_not hc

theorem pyStripChars_idem (l : List Char) :
    pyStripChars (pyStripChars l) = pyStripChars l :=
  pyStripChars_of_clean (clean_pyStripChars l)

/-! ## Sentence-split cleanliness -/

theorem isSentencePunct_not_space {c : Char} (h : isSentencePunct c = true) :
    isPySpace c = false := by
  rw [isSentencePunct] at h
  simp only [Bool.or_eq_true, beq_iff_eq] at h
  rcases h with ((h | h) | h) | h <;> subst h <;> decide

theorem splitGo_clean :
    ∀ (l : List Char) (skipping : Bool) (acc : List Char),
      (∀ c, l.getLast? = some c → isPySpace c = false) →
      (l = [] → ∀ c, acc.head? = some c → isPySpace c = false) →
      (skipping = true → acc = [] ∧ l ≠ []) →
      (skipping = false →
        (acc = [] → l ≠ [] ∧ ∀ c, l.head? = some c → isPySpace c = false) ∧
        (∀ c, acc.getLast? = some c → isPySpace c = false)) →
      ∀ piece ∈ splitGo skipping l acc, piece ≠ [] ∧ CleanStr piece := by
  intro l
  induction l with
  | nil =>
    intro skipping acc hlast hend htrue hfalse piece hmem
    rw [splitGo] at hmem
    simp only [List.mem_singleton] at hmem
    subst hmem
    have hsf : skipping = false := by
      cases hsk : skipping
      · rfl
      · exact absurd rfl (htrue hsk).2
    have hne : acc ≠ [] := by
      intro hc
      exact absurd rfl ((hfalse hsf).1 hc).1
    refine ⟨by simpa using hne, ?_, ?_⟩
    · intro c hc
      rw [List.head?_reverse] at hc
      exact (hfalse hsf).2 c hc
    · intro c hc
      rw [List.getLast?_reverse] at hc
      exact hend rfl c hc
  | cons c rest ih =>
    intro skipping acc hlast hend htrue hfalse piece hmem
    have hrest_last : ∀ c2, rest.getLast? = some c2 → isPySpace c2 = false := by
      intro c2 hc2
      have hne : rest ≠ [] := by
        intro hc
        subst hc
        cases hc2
      apply hlast c2
      cases rest with
      | nil => exact absurd rfl hne
      | cons b t => rw [List.getLast?_cons_cons]; exact hc2
    have hc_last : rest = [] → isPySpace c = false := by
      intro hc
      subst hc
      exact hlast c rfl
    rw [splitGo] at hmem
    cases hsk : skipping with
    | true =>
      rw [hsk] at hmem
      simp only [if_true] at hmem
      by_cases hsp : isPySpace c = true
      · rw [if_pos hsp] at hmem
        have hrne : rest ≠ [] := by
          intro hc
          rw [hc_last hc] at hsp
          cases hsp
        refine ih true [] hrest_last (fun hc => absurd hc hrne)
          (fun _ => ⟨rfl, hrne⟩) (fun hc => by cases hc) piece hmem
      · simp only [Bool.not_eq_true] at hsp
        rw [hsp] at hmem
        simp only [Bool.false_eq_true, if_false] at hmem
        refine ih false [c] hrest_last ?_ (fun hc => by cases hc) ?_ piece hmem
        · intro hre c2 hc2
          simp only [List.head?_cons, Option.some.injEq] at hc2
          rw [← hc2]
          exact hc_last hre
        · intro _
          refine ⟨fun hc => absurd hc (by simp), ?_⟩
          intro c2 hc2
          simp only [List.getLast?_singleton, Option.some.injEq] at hc2
          rw [← hc2]
          exact hsp
    | false =>
      rw [hsk] at hmem
      simp only [Bool.false_eq_true, if_false] at hmem
      by_cases hbd : (isPySpace c &&
          (match acc.head? with
           | Option.some p => isSentencePunct p
           | Option.none => false)) = true
      · rw [if_pos hbd] at hmem
        simp only [Bool.and_eq_true] at hbd
        obtain ⟨hsp, hpunct⟩ := hbd
        have hpn : ∃ p, acc.head? = some p ∧ isSentencePunct p = true := by
          cases hh : acc.head? with
          | none => rw [hh] at hpunct; cases hpunct
          | some p => rw [hh] at hpunct; exact ⟨p, rfl, hpunct⟩
        obtain ⟨p, hp, hps⟩ := hpn
        have haccne : acc ≠ [] := by
          intro hc
          rw [hc] at hp
          cases hp
        have hrne : rest ≠ [] := by
          intro hc
          rw [hc_last hc] at hsp
          cases hsp
        simp only [List.mem_cons] at hmem
        rcases hmem with hmem | hmem
        · subst hmem
          refine ⟨by simpa using haccne, ?_, ?_⟩
          · intro c2 hc2
            rw [List.head?_reverse] at hc2
            exact (hfalse hsk).2 c2 hc2
          · intro c2 hc2
            rw [List.getLast?_reverse, hp] at hc2
            injection hc2 with hc2
            rw [← hc2]
            exact isSentencePunct_not_space hps
        · refine ih true [] hrest_last (fun hc => absurd hc hrne)
            (fun _ => ⟨rfl, hrne⟩) (fun hc => by cases hc) piece hmem
      · rw [if_neg hbd] at hmem
        refine ih false (c :: acc) hrest_last ?_ (fun hc => by cases hc) ?_
          piece hmem
        · intro hre c2 hc2
          simp only [List.head?_cons, Option.some.injEq] at hc2
          rw [← hc2]
          exact hc_last hre
        · intro _
          refine ⟨fun hc => absurd hc (by simp), ?_⟩
          intro c2 hc2
          cases hacc : acc with
          | nil =>
            rw [hacc] at hc2
            simp only [List.getLast?_singleton, Option.some.injEq] at hc2
            rw [← hc2]
            exact ((hfalse hsk).1 hacc).2 c rfl
          | cons b t =>
            rw [hacc] at hc2
            rw [List.getLast?_cons_cons] at hc2
            apply (hfalse hsk).2 c2
            rw [hacc]
            exact hc2

/-! ## Chunk coverage -/

theorem sentences_clean {s2 : List Char} (hne : s2 ≠ [])
    (hs : pyStripChars s2 = s2) :
    ∀ p ∈ splitSentences s2, p ≠ [] ∧ CleanStr p := by
  have hclean : CleanStr s2 := hs ▸ clean_pyStripChars s2
  exact splitGo_clean s2 false [] hclean.2 (fun hc => absurd hc hne)
    (fun hc => by cases hc) (fun _ => ⟨fun _ => ⟨hne, hclean.1⟩,
      fun c2 hc2 => by cases hc2⟩)

theorem joinSpace_cons_of_ne (a : List Char) {t : List (List Char)}
    (h : t ≠ []) : joinSpace (a :: t) = a ++ ' ' :: joinSpace t := by
  cases t with
  | nil => exact absurd rfl h
  | cons b rest => rw [joinSpace]

theorem joinSpace_glue (a b : List Char) (t : List (List Char)) :
    joinSpace ((a ++ ' ' :: b) :: t) = a ++ ' ' :: joinSpace (b :: t) := by
  cases t with
  | nil => rw [joinSpace, joinSpace]
  | cons c rest =>
    rw [joinSpace_cons_of_ne _ (List.cons_ne_nil c rest),
      joinSpace_cons_of_ne b (List.cons_ne_nil c rest)]
    simp [List.append_assoc]

theorem joinSpace_ne_nil {a : List Char} (ha : a ≠ [])
    (t : List (List Char)) : joinSpace (a :: t) ≠ [] := by
  cases t with
  | nil => rw [joinSpace]; exact ha
  | cons b rest =>
    rw [joinSpace]
    intro hc
    rw [List.append_eq_nil] at hc
    cases hc.2

theorem strip_glue {cur sent : List Char} (hcur : pyStripChars cur = cur)
    (hsent : sent ≠ []) (hcl : CleanStr sent) :
    pyStripChars (cur ++ ' ' :: sent) =
      if cur = [] then sent else cur ++ ' ' :: sent := by
  by_cases hc : cur = []
  · subst hc
    rw [if_pos rfl]
    simp only [List.nil_append]
    show pyStripChars (' ' :: sent) = sent
    rw [pyStripChars]
    have h1 : (' ' :: sent).dropWhile isPySpace = sent := by
      rw [List.dropWhile_cons]
      have : isPySpace ' ' = true := by decide
      rw [this, if_pos rfl]
      exact dropWhile_eq_self_of_head hcl.1
    rw [h1, dropWhile_eq_self_of_head, List.reverse_reverse]
    intro c2 hc2
    rw [List.head?_reverse] at hc2
    exact hcl.2 c2 hc2
  · rw [if_neg hc]
    apply pyStripChars_of_clean
    have hclcur : CleanStr cur := hcur ▸ clean_pyStripChars cur
    constructor
    · intro c2 hc2
      cases hcc : cur with
      | nil => exact absurd hcc hc
      | cons d t =>
        rw [hcc, List.cons_append, List.head?_cons] at hc2
        injection hc2 with hc2
        apply hclcur.1
        rw [hcc, List.head?_cons, hc2]
    · intro c2 hc2
      rw [List.getLast?_append_of_ne_nil _ (List.cons_ne_nil ' ' sent)] at hc2
      cases hsent2 : sent with
      | nil => exact absurd hsent2 hsent
      | cons d t =>
        rw [hsent2, List.getLast?_cons_cons] at hc2
        apply hcl.2 c2
        rw [hsent2]
        exact hc2

theorem filter_cons_ne {c : List Char} (h : c ≠ []) (t : List (List Char)) :
    (c :: t).filter (fun x => !x.isEmpty) =
      c :: t.filter (fun x => !x.isEmpty) := by
  rw [List.filter_cons]
  simp [h]

theorem filter_cons_nil (t : List (List Char)) :
    (([] : List Char) :: t).filter (fun x => !x.isEmpty) =
      t.filter (fun x => !x.isEmpty) := by
  rw [List.filter_cons]
  simp

theorem chunkGo_coverage (minl maxl : Int) :
    ∀ (sents : List (List Char)) (cur : List Char),
      (∀ sent ∈ sents, sent ≠ [] ∧ CleanStr sent) →
      pyStripChars cur = cur →
      joinSpace (((chunkGo minl maxl sents cur).map pyStripChars).filter
        (fun x => !x.isEmpty)) =
      joinSpace ((cur :: sents).filter (fun x => !x.isEmpty)) := by
  intro sents
  induction sents with
  | nil =>
    intro cur hsents hcur
    rw [chunkGo]
    by_cases hc : cur = []
    · subst hc
      simp [joinSpace, filter_cons_nil]
    · have hce : cur.isEmpty = false := by simpa using hc
      rw [hce]
      simp only [Bool.false_eq_true, if_false, List.map_cons, List.map_nil,
        hcur]
  | cons sent rest ih =>
    intro cur hsents hcur
    obtain ⟨hsne, hscl⟩ := hsents sent (List.mem_cons_self sent rest)
    have hrests : ∀ s2 ∈ rest, s2 ≠ [] ∧ CleanStr s2 := by
      intro s2 hs2
      exact hsents s2 (List.mem_cons_of_mem _ hs2)
    have hglue : pyStripChars (cur ++ ' ' :: sent) =
        if cur = [] then sent else cur ++ ' ' :: sent :=
      strip_glue hcur hsne hscl
    have happend :
        joinSpace (((chunkGo minl maxl rest
            (pyStripChars (cur ++ ' ' :: sent))).map pyStripChars).filter
          (fun x => !x.isEmpty)) =
        joinSpace ((cur :: sent :: rest).filter (fun x => !x.isEmpty)) := by
      rw [ih (pyStripChars (cur ++ ' ' :: sent)) hrests (pyStripChars_idem _)]
      by_cases hc : cur = []
      · subst hc
        have hglue2 : pyStripChars ([] ++ ' ' :: sent) = sent := by
          rw [hglue]
          simp
        rw [hglue2, filter_cons_nil]
      · rw [hglue, if_neg hc]
        have hgne : cur ++ ' ' :: sent ≠ [] := by
          intro hcc
          rw [List.append_eq_nil] at hcc
          cases hcc.2
        rw [filter_cons_ne hgne, filter_cons_ne hc, filter_cons_ne hsne,
          joinSpace_glue, joinSpace_cons_of_ne cur (List.cons_ne_nil _ _)]
    rw [chunkGo]
    by_cases h1 : (cur.length : Int) + (sent.length : Int) < maxl
    · rw [if_pos h1]
      exact happend
    · rw [if_neg h1]
      by_cases h2 : minl ≤ (cur.length : Int)
      · rw [if_pos h2]
        have hrec := ih sent hrests (pyStripChars_of_clean hscl)
        rw [filter_cons_ne hsne] at hrec
        by_cases hc : cur = []
        · subst hc
          rw [List.map_cons]
          show joinSpace (((pyStripChars []) ::
            (chunkGo minl maxl rest sent).map pyStripChars).filter
              (fun x => !x.isEmpty)) = _
          rw [show pyStripChars [] = [] from rfl, filter_cons_nil,
            filter_cons_nil, filter_cons_ne hsne, hrec]
        · rw [List.map_cons, hcur, filter_cons_ne hc, filter_cons_ne hc,
            filter_cons_ne hsne]
          have hjne : joinSpace (sent ::
              rest.filter (fun x => !x.isEmpty)) ≠ [] :=
            joinSpace_ne_nil hsne _
          have hfne : ((chunkGo minl maxl rest sent).map pyStripChars).filter
              (fun x => !x.isEmpty) ≠ [] := by
            intro hcc
            rw [hcc] at hrec
            exact hjne (by rw [← hrec]; rfl)
          rw [joinSpace_cons_of_ne cur hfne, hrec,
            joinSpace_cons_of_ne cur (List.cons_ne_nil _ _)]
      · rw [if_neg h2]
        exact happend

theorem chunkGo_empty_sentence (minl maxl : Int) :
    ((chunkGo minl maxl [[]] []).map pyStripChars).filter
      (fun x => !x.isEmpty) = [] := by
  rw [chunkGo]
  split_ifs with h1 h2
  · rfl
  · rfl
  · rfl

/-- C8 (confirmed): joining the returned chunks with single spaces reproduces
exactly the sentences of the (whitespace-normalized, stripped) input joined
with single spaces, in order; no returned chunk is empty and every chunk is
already stripped.  Determinism for identical input is immediate since the
embedded `chunk_text` is a pure function of its arguments. -/
theorem chunk_coverage (s : List Char) (minl maxl : Int) :
    joinSpace (chunk_text s minl maxl) = joinSpace (sentencesOfText s) ∧
    ∀ c ∈ chunk_text s minl maxl, c ≠ [] ∧ pyStripChars c = c := by
  constructor
  · rw [chunk_text, sentencesOfText]
    by_cases hs2 : pyStripChars (pyNormNewlines s) = []
    · rw [hs2]
      have hss : splitSentences ([] : List Char) = [[]] := rfl
      rw [hss, chunkGo_empty_sentence]
      rfl
    · have hstrip : pyStripChars (pyStripChars (pyNormNewlines s)) =
          pyStripChars (pyNormNewlines s) := pyStripChars_idem _
      have hclean := sentences_clean hs2 hstrip
      rw [chunkGo_coverage minl maxl _ [] hclean rfl, filter_cons_nil,
        List.filter_eq_self.mpr]
      intro a ha
      simpa using (hclean a ha).1
  · intro c hc
    rw [chunk_text, List.mem_filter] at hc
    obtain ⟨hmem, hne⟩ := hc
    rw [List.mem_map] at hmem
    obtain ⟨c0, _, hc0⟩ := hmem
    refine ⟨by simpa using hne, ?_⟩
    rw [← hc0, pyStripChars_idem]

/-- Witness for C8 at a concrete input. -/
theorem chunk_coverage_witness :
    joinSpace (chunk_text ("Un. Deux.".data) 1 4) =
      joinSpace (sentencesOfText ("Un. Deux.".data)) ∧
    ("Un.".data ≠ [] ∧ pyStripChars ("Un.".data) = "Un.".data) :=
  ⟨(chunk_coverage ("Un. Deux.".data) 1 4).1,
    (chunk_coverage ("Un. Deux.".data) 1 4).2 ("Un.".data) (by decide)⟩

/-! ## Claim C4 — chunk length bound -/

theorem maxLenOf_nonneg (ls : List (List Char)) : 0 ≤ maxLenOf ls := by
  induction ls with
  | nil => rw [maxLenOf]; simp
  | cons a rest ih =>
    rw [maxLenOf] at ih ⊢
    simp only [List.foldr_cons]
    exact le_trans ih (le_max_right _ _)

theorem le_maxLenOf {ls : List (List Char)} :
    ∀ l ∈ ls, (l.length : Int) ≤ maxLenOf ls := by
  induction ls with
  | nil => intro l hl; cases hl
  | cons a rest ih =>
    intro l hl
    rw [List.mem_cons] at hl
    rw [maxLenOf, List.foldr_cons]
    rcases hl with hl | hl
    · subst hl
      exact le_max_left _ _
    · exact le_trans (ih l hl) (by
        rw [maxLenOf]
        exact le_max_right _ _)

theorem chunkGo_bound (minl maxl S : Int) :
    ∀ (sents : List (List Char)) (cur : List Char),
      (∀ sent ∈ sents, (sent.length : Int) ≤ S) →
      ((cur.length : Int) ≤ max maxl (max S (minl + S)) ∨ cur = []) →
      ∀ c ∈ chunkGo minl maxl sents cur,
        (c.length : Int) ≤ max maxl (max S (minl + S)) ∨ c = [] := by
  intro sents
  induction sents with
  | nil =>
    intro cur hsents hcur c hc
    rw [chunkGo] at hc
    by_cases hce : cur.isEmpty = true
    · rw [hce] at hc
      simp at hc
    · simp only [Bool.not_eq_true] at hce
      rw [hce] at hc
      simp only [Bool.false_eq_true, if_false, List.mem_singleton] at hc
      subst hc
      exact hcur
  | cons sent rest ih =>
    intro cur hsents hcur c hc
    have hsS : (sent.length : Int) ≤ S :=
      hsents sent (List.mem_cons_self sent rest)
    have hrests : ∀ s2 ∈ rest, (s2.length : Int) ≤ S := by
      intro s2 hs2
      exact hsents s2 (List.mem_cons_of_mem _ hs2)
    have hstriplen : ((pyStripChars (cur ++ ' ' :: sent)).length : Int) ≤
        (cur.length : Int) + 1 + (sent.length : Int) := by
      have h1 := length_pyStripChars_le (cur ++ ' ' :: sent)
      have h2 : (cur ++ ' ' :: sent).length =
          cur.length + 1 + sent.length := by
        rw [List.length_append, List.length_cons]
        omega
      rw [h2] at h1
      exact_mod_cast h1
    rw [chunkGo] at hc
    by_cases h1 : (cur.length : Int) + (sent.length : Int) < maxl
    · rw [if_pos h1] at hc
      refine ih (pyStripChars (cur ++ ' ' :: sent)) hrests (Or.inl ?_) c hc
      have : (cur.length : Int) + 1 + (sent.length : Int) ≤ maxl := by
        linarith
      exact le_trans (le_trans hstriplen this) (le_max_left _ _)
    · rw [if_neg h1] at hc
      by_cases h2 : minl ≤ (cur.length : Int)
      · rw [if_pos h2] at hc
        rw [List.mem_cons] at hc
        rcases hc with hc | hc
        · subst hc
          exact hcur
        · refine ih sent hrests (Or.inl ?_) c hc
          exact le_trans hsS (le_trans (le_max_left _ _) (le_max_right _ _))
      · rw [if_neg h2] at hc
        refine ih (pyStripChars (cur ++ ' ' :: sent)) hrests (Or.inl ?_) c hc
        have hlt : (cur.length : Int) < minl := by linarith
        have : (cur.length : Int) + 1 + (sent.length : Int) ≤ minl + S := by
          linarith
        exact le_trans (le_trans hstriplen this)
          (le_trans (le_max_right _ _) (le_max_right _ _))

/-- C4 (corrected): every returned chunk's length is bounded by
`max max_len (max L (min_len + L))` where `L` is the longest sentence length.
Chunks longer than `max_len` arise exactly from the append-anyway rule for a
buffer still below `min_len`, which can happen at ANY position, not only for
the first chunk — see the counterexample. -/
theorem chunk_bound (s : List Char) (minl maxl : Int) :
    ∀ c ∈ chunk_text s minl maxl,
      (c.length : Int) ≤ max maxl (max (maxLenOf (sentencesOfText s))
        (minl + maxLenOf (sentencesOfText s))) := by
  intro c hc
  rw [chunk_text, List.mem_filter] at hc
  obtain ⟨hmem, hne⟩ := hc
  rw [List.mem_map] at hmem
  obtain ⟨c0, hc0mem, hc0⟩ := hmem
  have hb := chunkGo_bound minl maxl (maxLenOf (sentencesOfText s))
    (splitSentences (pyStripChars (pyNormNewlines s))) []
    (by
      intro sent hsent
      exact le_maxLenOf sent hsent)
    (Or.inr rfl) c0 hc0mem
  rcases hb with hb | hb
  · rw [← hc0]
    have := length_pyStripChars_le c0
    have hcast : ((pyStripChars c0).length : Int) ≤ (c0.length : Int) := by
      exact_mod_cast this
    exact le_trans hcast hb
  · subst hb
    rw [← hc0] at hne
    simp [pyStripChars] at hne

/-- Witness for C4 at a concrete input. -/
theorem chunk_bound_witness :
    (("ab.".data : List Char).length : Int) ≤
      max 5 (max (maxLenOf (sentencesOfText ("ab.".data)))
        (0 + maxLenOf (sentencesOfText ("ab.".data)))) :=
  chunk_bound ("ab.".data) 0 5 ("ab.".data) (by decide)

/-- Counterexample for C4 as stated: with `min_len = 5`, `max_len = 6` and
input `"abcd. ef. ghij."`, the SECOND chunk (`"ef. ghij."`, 9 characters)
exceeds `max_len`, although a sentence boundary did occur before `min_len`
in the first chunk — so the exceeding chunk need not be the first. -/
theorem chunk_bound_cex :
    (chunk_text ("abcd. ef. ghij.".data) 5 6).map List.length = [5, 9] ∧
      ¬((9 : Int) ≤ 6) := by
  exact ⟨by decide, by decide⟩

/-! ## Normalizer shape lemmas -/

theorem normActivity_eq_stepCore (obj : List (String × PyVal)) (key : String) :
    normActivity obj key = stepCore
      (match pyOr (pyGet obj key) (PyVal.dict []) with
       | PyVal.dict d => d
       | _ => []) (pyTitle (pyReplaceUS key)) := rfl

theorem planStep_eq_stepCore (step : List (String × PyVal)) :
    planStep step = stepCore step "Étape" := rfl

theorem str_falsy {s : String} (h : truthy (PyVal.str s) = false) :
    PyVal.str s = PyVal.str "" := by
  rw [truthy] at h
  simp only [Bool.not_eq_eq_eq_not, Bool.not_false, beq_iff_eq] at h
  rw [h]

theorem pyOr_chain3_falsy {a b c : PyVal}
    (h : truthy (pyOr a (pyOr b (pyOr c (.str "")))) = false) :
    pyOr a (pyOr b (pyOr c (.str ""))) = PyVal.str "" := by
  have h1 := pyOr_eq_of_not_truthy h
  rw [h1] at h ⊢
  have h2 := pyOr_eq_of_not_truthy h
  rw [h2] at h ⊢
  exact pyOr_eq_of_not_truthy h

theorem minutes_isNum_false (m0 : PyVal) :
    isNum (if isNum m0 = true then PyVal.str (toString (pyIntOfNum m0))
      else m0) = false := by
  by_cases hm : isNum m0 = true
  · rw [if_pos hm]
    rfl
  · rw [if_neg hm]
    simpa using hm

theorem minutes_conv_falsy {a b c : PyVal} :
    truthy (if isNum (pyOr a (pyOr b (pyOr c (.str "")))) = true then
        PyVal.str (toString (pyIntOfNum (pyOr a (pyOr b (pyOr c (.str ""))))))
      else pyOr a (pyOr b (pyOr c (.str "")))) = false →
    (if isNum (pyOr a (pyOr b (pyOr c (.str "")))) = true then
        PyVal.str (toString (pyIntOfNum (pyOr a (pyOr b (pyOr c (.str ""))))))
      else pyOr a (pyOr b (pyOr c (.str "")))) = PyVal.str "" := by
  by_cases hm : isNum (pyOr a (pyOr b (pyOr c (.str "")))) = true
  · rw [if_pos hm]
    exact str_falsy
  · rw [if_neg hm]
    exact pyOr_chain3_falsy

theorem stepCore_shape {raw : List (String × PyVal)} {nameDefault : String}
    (hk : truthy (PyVal.str nameDefault) = true) {a : PyVal}
    (h : stepCore raw nameDefault = Except.ok a) : StepOK a := by
  have hname : truthy (pyOr (pyGet raw "name")
      (pyOr (pyGet raw "title") (.str nameDefault))) = true := by
    rw [truthy_pyOr, truthy_pyOr, hk]
    simp
  rw [stepCore] at h
  simp only [bind, Except.bind, pure, Except.pure] at h
  split at h
  · -- truthy teacher_script
    rename_i hts
    injection h with h1
    refine ⟨_, _, _, h1.symm, hname, minutes_isNum_false _, ?_, ?_⟩
    · exact minutes_conv_falsy
    · intro hf
      rw [hf] at hts
      cases hts
  · split at h
    · -- truthy script
      rename_i hsc
      injection h with h1
      refine ⟨_, _, _, h1.symm, hname, minutes_isNum_false _, ?_, ?_⟩
      · exact minutes_conv_falsy
      · intro hf
        rw [hf] at hsc
        cases hsc
    · -- third branch: split on the Except result of the steps/description part
      split at h
      · cases h
      · rename_i third hthird
        split at h
        · rename_i htr
          injection h with h1
          refine ⟨_, _, _, h1.symm, hname, minutes_isNum_false _, ?_, ?_⟩
          · exact minutes_conv_falsy
          · intro hf
            rw [hf] at htr
            cases htr
        · injection h with h1
          refine ⟨_, _, _, h1.symm, hname, minutes_isNum_false _, ?_, ?_⟩
          · exact minutes_conv_falsy
          · intro _
            rfl

theorem stepCore_rebuild {n m t : PyVal} (nameDefault : String)
    (hn : truthy n = true) (hm : isNum m = false)
    (hmf : truthy m = false → m = PyVal.str "")
    (htf : truthy t = false → t = PyVal.str "") :
    stepCore [("name", n), ("minutes", m), ("teacher_script", t)]
        nameDefault =
      Except.ok (PyVal.dict
        [("name", n), ("minutes", m), ("teacher_script", t)]) := by
  rw [stepCore]
  simp only [bind, Except.bind, pure, Except.pure]
  simp only [show pyGet [("name", n), ("minutes", m), ("teacher_script", t)]
      "name" = n from rfl,
    show pyGet [("name", n), ("minutes", m), ("teacher_script", t)]
      "title" = PyVal.none from rfl,
    show pyGet [("name", n), ("minutes", m), ("teacher_script", t)]
      "minutes" = m from rfl,
    show pyGet [("name", n), ("minutes", m), ("teacher_script", t)]
      "duration" = PyVal.none from rfl,
    show pyGet [("name", n), ("minutes", m), ("teacher_script", t)]
      "duration_minutes" = PyVal.none from rfl,
    show pyGet [("name", n), ("minutes", m), ("teacher_script", t)]
      "teacher_script" = t from rfl,
    show pyGet [("name", n), ("minutes", m), ("teacher_script", t)]
      "script" = PyVal.none from rfl,
    show pyGet [("name", n), ("minutes", m), ("teacher_script", t)]
      "steps" = PyVal.none from rfl,
    show pyGet [("name", n), ("minutes", m), ("teacher_script", t)]
      "description" = PyVal.none from rfl]
  rw [pyOr_pos _ hn]
  have hminutes : (if isNum (pyOr m (pyOr PyVal.none
        (pyOr PyVal.none (PyVal.str "")))) = true then
      PyVal.str (toString (pyIntOfNum (pyOr m (pyOr PyVal.none
        (pyOr PyVal.none (PyVal.str ""))))))
    else pyOr m (pyOr PyVal.none (pyOr PyVal.none (PyVal.str "")))) = m := by
    by_cases htm : truthy m = true
    · rw [pyOr_pos _ htm, if_neg (by simp [hm])]
    · simp only [Bool.not_eq_true] at htm
      rw [hmf htm]
      rfl
  rw [hminutes]
  by_cases htt : truthy t = true
  · rw [if_pos htt]
  · simp only [Bool.not_eq_true] at htt
    rw [htf htt]
    rfl

theorem normTitle_truthy (obj : List (String × PyVal)) :
    truthy (normTitle obj) = true := by
  rw [normTitle, truthy_pyOr, truthy_pyOr]
  have : truthy (PyVal.str "Leçon") = true := by decide
  rw [this]
  simp

theorem normDuration_isStr (obj : List (String × PyVal)) :
    ∃ s, normDuration obj = PyVal.str s := by
  rw [normDuration]
  split_ifs with h1 h2 h3
  · exact ⟨_, rfl⟩
  · simp only [Bool.and_eq_true] at h2
    cases hv : pyGet obj "duration" with
    | str s => exact ⟨s, rfl⟩
    | none => rw [hv] at h2; cases h2.2
    | bool b => rw [hv] at h2; cases h2.2
    | int n => rw [hv] at h2; cases h2.2
    | float q => rw [hv] at h2; cases h2.2
    | list l => rw [hv] at h2; cases h2.2
    | dict d => rw [hv] at h2; cases h2.2
  · exact ⟨_, rfl⟩
  · exact ⟨_, rfl⟩

theorem normActivity_shape {obj : List (String × PyVal)} {key : String}
    {a : PyVal}
    (hk : truthy (PyVal.str (pyTitle (pyReplaceUS key))) = true)
    (h : normActivity obj key = Except.ok a) : StepOK a :=
  stepCore_shape hk (normActivity_eq_stepCore obj key ▸ h)

theorem planStep_shape {d : List (String × PyVal)} {a : PyVal}
    (h : planStep d = Except.ok a) : StepOK a :=
  stepCore_shape (by decide) (planStep_eq_stepCore d ▸ h)

theorem planFromList_shape :
    ∀ {l : List PyVal} {P : List PyVal}, planFromList l = Except.ok P →
      ∀ p ∈ P, StepOK p := by
  intro l
  induction l with
  | nil =>
    intro P h p hp
    rw [planFromList] at h
    injection h with h1
    rw [← h1] at hp
    cases hp
  | cons step rest ih =>
    intro P h p hp
    match step with
    | .dict d =>
      rw [planFromList] at h
      simp only [bind, Except.bind, pure, Except.pure] at h
      split at h
      · cases h
      · rename_i e he
        split at h
        · cases h
        · rename_i tail htail
          injection h with h1
          rw [← h1, List.mem_cons] at hp
          rcases hp with hp | hp
          · subst hp
            exact planStep_shape he
          · exact ih htail p hp
    | .none | .bool _ | .int _ | .float _ | .str _ | .list _ =>
      simp only [planFromList] at h
      exact ih h p hp

theorem normActivities_nil {obj : List (String × PyVal)}
    {acts : List (String × PyVal)}
    (h : normActivities obj [] = Except.ok acts) : acts = [] := by
  rw [normActivities] at h
  injection h with h1
  exact h1.symm

theorem normActivities_cons {obj : List (String × PyVal)} {k : String}
    {ks : List String} {acts : List (String × PyVal)}
    (h : normActivities obj (k :: ks) = Except.ok acts) :
    ∃ a rest, normActivity obj k = Except.ok a ∧
      normActivities obj ks = Except.ok rest ∧ acts = (k, a) :: rest := by
  rw [normActivities] at h
  simp only [bind, Except.bind, pure, Except.pure] at h
  split at h
  · cases h
  · rename_i a ha
    split at h
    · cases h
    · rename_i rest hrest
      injection h with h1
      exact ⟨a, rest, ha, hrest, h1.symm⟩

theorem truthy_img_str (r : String) :
    truthy (PyVal.str ("img" ++ r)) = true := by
  have hne : ("img" ++ r) = "" → False := by
    intro hc
    have h2 := congrArg String.length hc
    rw [String.length_append] at h2
    have h3 : ("img" : String).length = 3 := rfl
    have h4 : ("" : String).length = 0 := rfl
    omega
  show (!(("img" ++ r) == "")) = true
  simp only [Bool.not_eq_true']
  rw [beq_eq_false_iff_ne]
  exact hne

theorem ipEntry_shape {d : List (String × PyVal)} {i : Nat} {v : PyVal}
    (h : ipEntry d i = Except.ok (Option.some v)) : IpOK v := by
  have hidOK : truthy (pyOr (pyGet d "id")
      (PyVal.str ("img" ++ Nat.repr (i + 1)))) = true := by
    rw [truthy_pyOr]
    by_cases hid : truthy (pyGet d "id") = true
    · rw [hid]
      simp
    · simp only [Bool.not_eq_true] at hid
      rw [hid, truthy_img_str]
      simp
  rw [ipEntry] at h
  simp only [bind, Except.bind, pure, Except.pure] at h
  split at h
  · rename_i hp
    injection h with h1
    injection h1 with h2
    subst h2
    exact ⟨_, _, rfl, hidOK, hp⟩
  · split at h
    · split at h
      · cases h
      · rename_i j hj
        split at h
        · rename_i htr
          injection h with h1
          injection h1 with h2
          subst h2
          exact ⟨_, _, rfl, hidOK, htr⟩
        · injection h with h1
          cases h1
    · injection h with h1
      cases h1

theorem ipFromList_shape :
    ∀ {l : List PyVal} {i : Nat} {I : List PyVal},
      ipFromList l i = Except.ok I → ∀ v ∈ I, IpOK v := by
  intro l
  induction l with
  | nil =>
    intro i I h v hv
    rw [ipFromList] at h
    injection h with h1
    rw [← h1] at hv
    cases hv
  | cons it rest ih =>
    intro i I h v hv
    match it with
    | .dict d =>
      rw [ipFromList] at h
      simp only [bind, Except.bind, pure, Except.pure] at h
      split at h
      · cases h
      · rename_i e he
        split at h
        · cases h
        · rename_i tail htail
          injection h with h1
          cases e with
          | none =>
            simp only at h1
            rw [← h1] at hv
            exact ih htail v hv
          | some v0 =>
            simp only at h1
            rw [← h1, List.mem_cons] at hv
            rcases hv with hv | hv
            · subst hv
              exact ipEntry_shape he
            · exact ih htail v hv
    | .none | .bool _ | .int _ | .float _ | .str _ | .list _ =>
      simp only [ipFromList] at h
      exact ih h v hv

theorem normFTM_ne_nil (obj : List (String × PyVal)) (title : PyVal) :
    normFTM obj title ≠ [] := by
  rw [normFTM]
  split
  · exact List.cons_ne_nil _ _
  · exact List.cons_ne_nil _ _

/-! ## Normalizer rebuild lemmas -/

theorem normActivity_rebuild {obj : List (String × PyVal)} {k : String}
    {n m t : PyVal}
    (hget : pyGet obj k = PyVal.dict
      [("name", n), ("minutes", m), ("teacher_script", t)])
    (hn : truthy n = true) (hm : isNum m = false)
    (hmf : truthy m = false → m = PyVal.str "")
    (htf : truthy t = false → t = PyVal.str "") :
    normActivity obj k = Except.ok (PyVal.dict
      [("name", n), ("minutes", m), ("teacher_script", t)]) := by
  rw [normActivity_eq_stepCore, hget, pyOr_pos _ (by rfl)]
  exact stepCore_rebuild _ hn hm hmf htf

theorem planFromList_rebuild :
    ∀ {P : List PyVal}, (∀ p ∈ P, StepOK p) →
      planFromList P = Except.ok P := by
  intro P
  induction P with
  | nil => intro _; rfl
  | cons p rest ih =>
    intro hall
    obtain ⟨n, m, t, hpeq, hn, hm, hmf, htf⟩ :=
      hall p (List.mem_cons_self p rest)
    subst hpeq
    rw [planFromList]
    simp only [bind, Except.bind, pure, Except.pure]
    rw [planStep_eq_stepCore, stepCore_rebuild _ hn hm hmf htf,
      ih (fun q hq => hall q (List.mem_cons_of_mem _ hq))]

theorem ipFromList_rebuild :
    ∀ {I : List PyVal}, (∀ v ∈ I, IpOK v) →
      ∀ i, ipFromList I i = Except.ok I := by
  intro I
  induction I with
  | nil => intro _ i; rfl
  | cons v rest ih =>
    intro hall i
    obtain ⟨idv, pr, hveq, hid, hpr⟩ := hall v (List.mem_cons_self v rest)
    subst hveq
    have hentry : ipEntry [("id", idv), ("prompt", pr)] i =
        Except.ok (Option.some (PyVal.dict [("id", idv), ("prompt", pr)])) := by
      rw [ipEntry]
      simp only [bind, Except.bind, pure, Except.pure]
      simp only [show pyGet [("id", idv), ("prompt", pr)] "prompt" = pr
          from rfl,
        show pyGet [("id", idv), ("prompt", pr)] "image_prompt" = PyVal.none
          from rfl,
        show pyGet [("id", idv), ("prompt", pr)] "id" = idv from rfl]
      rw [pyOr_pos PyVal.none hpr, if_pos hpr, pyOr_pos _ hid, if_pos hpr]
    rw [ipFromList]
    simp only [bind, Except.bind, pure, Except.pure]
    rw [hentry, ih (fun q hq => hall q (List.mem_cons_of_mem _ hq)) (i + 1)]

theorem normActivities_rebuild {y : List (String × PyVal)} :
    ∀ {ks : List String}, (∀ k ∈ ks, StepOK (pyGet y k)) →
      normActivities y ks = Except.ok (ks.map (fun k => (k, pyGet y k))) := by
  intro ks
  induction ks with
  | nil => intro _; rfl
  | cons k rest ih =>
    intro hall
    obtain ⟨n, m, t, hkeq, hn, hm, hmf, htf⟩ :=
      hall k (List.mem_cons_self k rest)
    rw [normActivities]
    simp only [bind, Except.bind, pure, Except.pure]
    rw [normActivity_rebuild hkeq hn hm hmf htf,
      ih (fun q hq => hall q (List.mem_cons_of_mem _ hq)), ← hkeq]
    rfl

theorem normalizeLesson_shape {x y : List (String × PyVal)}
    (h : normalizeLesson x = Except.ok y) :
    ∃ (O M P I : List PyVal) (a1 a2 a3 a4 a5 a6 a7 : PyVal),
      y = [("title", normTitle x), ("duration", normDuration x),
           ("objectives", PyVal.list O), ("materials", PyVal.list M),
           ("plan", PyVal.list P), ("image_prompts", PyVal.list I),
           ("first_tutor_messages", PyVal.list (normFTM x (normTitle x))),
           ("warm_up", a1), ("vocab_cards", a2), ("mini_story", a3),
           ("phonics_focus", a4), ("practice", a5), ("wrap_up", a6),
           ("homework", a7)] ∧
      2 ≤ O.length ∧ O.length ≤ 3 ∧ M ≠ [] ∧
      (∀ p ∈ P, StepOK p) ∧ (∀ v ∈ I, IpOK v) ∧
      StepOK a1 ∧ StepOK a2 ∧ StepOK a3 ∧ StepOK a4 ∧ StepOK a5 ∧
      StepOK a6 ∧ StepOK a7 ∧ normImagePrompts x = Except.ok I := by
  rw [normalizeLesson] at h
  by_cases h1 : (decide ((normObjectives x).length < 2) ||
      decide (3 < (normObjectives x).length)) = true
  · rw [if_pos h1] at h
    cases h
  · rw [if_neg h1] at h
    by_cases h2 : (normMaterials x).isEmpty = true
    · rw [if_pos h2] at h
      cases h
    · rw [if_neg h2] at h
      split at h
      · cases h
      · rename_i acts hacts
        split at h
        · cases h
        · rename_i P hP
          split at h
          · cases h
          · rename_i I hI
            injection h with hy
            rw [activityKeys] at hacts
            obtain ⟨a1, r1, ha1, hr1, he1⟩ := normActivities_cons hacts
            obtain ⟨a2, r2, ha2, hr2, he2⟩ := normActivities_cons hr1
            obtain ⟨a3, r3, ha3, hr3, he3⟩ := normActivities_cons hr2
            obtain ⟨a4, r4, ha4, hr4, he4⟩ := normActivities_cons hr3
            obtain ⟨a5, r5, ha5, hr5, he5⟩ := normActivities_cons hr4
            obtain ⟨a6, r6, ha6, hr6, he6⟩ := normActivities_cons hr5
            obtain ⟨a7, r7, ha7, hr7, he7⟩ := normActivities_cons hr6
            have he8 := normActivities_nil hr7
            subst he8
            subst he7
            subst he6
            subst he5
            subst he4
            subst he3
            subst he2
            subst he1
            have s1 : StepOK a1 := normActivity_shape (by decide) ha1
            have s2 : StepOK a2 := normActivity_shape (by decide) ha2
            have s3 : StepOK a3 := normActivity_shape (by decide) ha3
            have s4 : StepOK a4 := normActivity_shape (by decide) ha4
            have s5 : StepOK a5 := normActivity_shape (by decide) ha5
            have s6 : StepOK a6 := normActivity_shape (by decide) ha6
            have s7 : StepOK a7 := normActivity_shape (by decide) ha7
            have hO : 2 ≤ (normObjectives x).length ∧
                (normObjectives x).length ≤ 3 := by
              simp only [Bool.or_eq_true, decide_eq_true_eq, not_or] at h1
              omega
            have hM : normMaterials x ≠ [] := fun hc => h2 (by rw [hc]; rfl)
            have hPok : ∀ p ∈ P, StepOK p := by
              rw [normPlan] at hP
              split at hP
              · exact planFromList_shape hP
              · injection hP with hP1
                subst hP1
                intro p hp
                rw [planFallback] at hp
                simp only [List.mem_map] at hp
                obtain ⟨q, hq, hq2⟩ := hp
                rw [List.mem_filter] at hq
                have hq3 := hq.1
                simp only [List.mem_cons, List.not_mem_nil, or_false] at hq3
                rcases hq3 with rfl | rfl | rfl | rfl | rfl | rfl | rfl <;>
                  (rw [← hq2]; assumption)
            have hIok : ∀ v ∈ I, IpOK v := by
              rw [normImagePrompts] at hI
              split at hI
              · exact ipFromList_shape hI
              · injection hI with hI1
                subst hI1
                intro v hv
                cases hv
            refine ⟨normObjectives x, normMaterials x, P, I,
              a1, a2, a3, a4, a5, a6, a7, ?_, hO.1, hO.2, hM, hPok, hIok,
              s1, s2, s3, s4, s5, s6, s7, hI⟩
            rw [← hy]
            simp only [List.cons_append, List.nil_append]

/-! ## Fixed-point lemmas for the normalized shape -/

theorem shell_objectives {T D : PyVal} {o : PyVal} {os M P I F : List PyVal}
    {a1 a2 a3 a4 a5 a6 a7 : PyVal} :
    normObjectives (lessonShell T D (o :: os) M P I F a1 a2 a3 a4 a5 a6 a7) =
      o :: os := rfl

theorem shell_materials {T D : PyVal} {m : PyVal} {O ms P I F : List PyVal}
    {a1 a2 a3 a4 a5 a6 a7 : PyVal} :
    normMaterials (lessonShell T D O (m :: ms) P I F a1 a2 a3 a4 a5 a6 a7) =
      m :: ms := rfl

theorem shell_duration {T : PyVal} {s : String} {O M P I F : List PyVal}
    {a1 a2 a3 a4 a5 a6 a7 : PyVal} :
    normDuration (lessonShell T (.str s) O M P I F a1 a2 a3 a4 a5 a6 a7) =
      .str s := rfl

theorem shell_title {T D : PyVal} {O M P I F : List PyVal}
    {a1 a2 a3 a4 a5 a6 a7 : PyVal} (hT : truthy T = true) :
    normTitle (lessonShell T D O M P I F a1 a2 a3 a4 a5 a6 a7) = T := by
  rw [normTitle]
  exact pyOr_pos _ hT

theorem shell_ftm {T D : PyVal} {f : PyVal} {O M P I fs : List PyVal}
    {a1 a2 a3 a4 a5 a6 a7 : PyVal} (t : PyVal) :
    normFTM (lessonShell T D O M P I (f :: fs) a1 a2 a3 a4 a5 a6 a7) t =
      f :: fs := rfl

theorem shell_acts {T D : PyVal} {O M P I F : List PyVal}
    {a1 a2 a3 a4 a5 a6 a7 : PyVal}
    (s1 : StepOK a1) (s2 : StepOK a2) (s3 : StepOK a3) (s4 : StepOK a4)
    (s5 : StepOK a5) (s6 : StepOK a6) (s7 : StepOK a7) :
    normActivities (lessonShell T D O M P I F a1 a2 a3 a4 a5 a6 a7)
      activityKeys =
      Except.ok [("warm_up", a1), ("vocab_cards", a2), ("mini_story", a3),
        ("phonics_focus", a4), ("practice", a5), ("wrap_up", a6),
        ("homework", a7)] := by
  have hstep : ∀ k ∈ activityKeys,
      StepOK (pyGet (lessonShell T D O M P I F a1 a2 a3 a4 a5 a6 a7) k) := by
    intro k hk
    simp only [activityKeys, List.mem_cons, List.not_mem_nil, or_false] at hk
    rcases hk with rfl | rfl | rfl | rfl | rfl | rfl | rfl
    exacts [s1, s2, s3, s4, s5, s6, s7]
  rw [normActivities_rebuild hstep]
  rfl

theorem shell_plan {T D : PyVal} {O M I F : List PyVal} {P : List PyVal}
    {a1 a2 a3 a4 a5 a6 a7 : PyVal}
    (hPok : ∀ p ∈ P, StepOK p)
    (hp : P ≠ [] ∨ planFallback [("warm_up", a1), ("vocab_cards", a2),
      ("mini_story", a3), ("phonics_focus", a4), ("practice", a5),
      ("wrap_up", a6), ("homework", a7)] = []) :
    normPlan (lessonShell T D O M P I F a1 a2 a3 a4 a5 a6 a7)
      [("warm_up", a1), ("vocab_cards", a2), ("mini_story", a3),
       ("phonics_focus", a4), ("practice", a5), ("wrap_up", a6),
       ("homework", a7)] = Except.ok P := by
  rcases P with _ | ⟨p, ps⟩
  · rcases hp with hne | hfb
    · exact absurd rfl hne
    · trans Except.ok (planFallback [("warm_up", a1), ("vocab_cards", a2),
        ("mini_story", a3), ("phonics_focus", a4), ("practice", a5),
        ("wrap_up", a6), ("homework", a7)])
      · rfl
      · rw [hfb]
  · exact planFromList_rebuild hPok

theorem shell_ip {T D : PyVal} {O M P F : List PyVal} {I : List PyVal}
    {a1 a2 a3 a4 a5 a6 a7 : PyVal}
    (hIok : ∀ v ∈ I, IpOK v) :
    normImagePrompts (lessonShell T D O M P I F a1 a2 a3 a4 a5 a6 a7) =
      Except.ok I := by
  rcases I with _ | ⟨v, vs⟩
  · rfl
  · exact ipFromList_rebuild hIok 0

theorem normalizeLesson_shell {T : PyVal} {s : String} {o m f : PyVal}
    {os ms fs P I : List PyVal} {a1 a2 a3 a4 a5 a6 a7 : PyVal}
    (hT : truthy T = true)
    (hO2 : 2 ≤ (o :: os).length) (hO3 : (o :: os).length ≤ 3)
    (hPok : ∀ p ∈ P, StepOK p) (hIok : ∀ v ∈ I, IpOK v)
    (s1 : StepOK a1) (s2 : StepOK a2) (s3 : StepOK a3) (s4 : StepOK a4)
    (s5 : StepOK a5) (s6 : StepOK a6) (s7 : StepOK a7)
    (hp : P ≠ [] ∨ planFallback [("warm_up", a1), ("vocab_cards", a2),
      ("mini_story", a3), ("phonics_focus", a4), ("practice", a5),
      ("wrap_up", a6), ("homework", a7)] = []) :
    normalizeLesson (lessonShell T (.str s) (o :: os) (m :: ms) P I (f :: fs)
      a1 a2 a3 a4 a5 a6 a7) =
      Except.ok (lessonShell T (.str s) (o :: os) (m :: ms) P I (f :: fs)
        a1 a2 a3 a4 a5 a6 a7) := by
  rw [normalizeLesson]
  split
  · rename_i hc
    exfalso
    rw [shell_objectives] at hc
    simp only [Bool.or_eq_true, decide_eq_true_eq, List.length_cons] at hc
    simp only [List.length_cons] at hO2 hO3
    omega
  · split
    · rename_i hc
      rw [shell_materials] at hc
      simp at hc
    · simp only [shell_acts s1 s2 s3 s4 s5 s6 s7, shell_plan hPok hp,
        shell_ip hIok]
      rw [shell_title hT]
      simp only [shell_ftm, shell_duration, shell_objectives, shell_materials]
      rfl

/-- **C5** (corrected): the normalizer is idempotent only conditionally.  If
`normalizeLesson x = ok y` and additionally the normalized `plan` value is
truthy (a nonempty list) or the activity-based plan fallback of `y` is empty,
then `normalizeLesson y = ok y`.  Without the extra hypothesis idempotence
fails: see the counterexample, where the first pass empties a non-empty
`plan` list and the second pass then rebuilds a non-empty plan from the
activity blocks. -/
theorem normalize_idempotent {x y : List (String × PyVal)}
    (h : normalizeLesson x = Except.ok y)
    (hp : truthy (pyGet y "plan") = true ∨ planFallback (actsEntries y) = []) :
    normalizeLesson y = Except.ok y := by
  obtain ⟨O, M, P, I, a1, a2, a3, a4, a5, a6, a7, hy, hO2, hO3, hM, hPok, hIok,
    s1, s2, s3, s4, s5, s6, s7, hIeq⟩ := normalizeLesson_shape h
  obtain ⟨o, os, rfl⟩ : ∃ o os, O = o :: os := by
    cases O with
    | nil => simp at hO2
    | cons o os => exact ⟨o, os, rfl⟩
  obtain ⟨m, ms, rfl⟩ : ∃ m ms, M = m :: ms := by
    cases M with
    | nil => exact absurd rfl hM
    | cons m ms => exact ⟨m, ms, rfl⟩
  obtain ⟨s, hs⟩ := normDuration_isStr x
  obtain ⟨f, fs, hF⟩ : ∃ f fs, normFTM x (normTitle x) = f :: fs := by
    cases hFF : normFTM x (normTitle x) with
    | nil => exact absurd hFF (normFTM_ne_nil x _)
    | cons f fs => exact ⟨f, fs, rfl⟩
  subst hy
  rw [hs, hF]
  rcases P with _ | ⟨p, ps⟩
  · have hfb : planFallback [("warm_up", a1), ("vocab_cards", a2),
        ("mini_story", a3), ("phonics_focus", a4), ("practice", a5),
        ("wrap_up", a6), ("homework", a7)] = [] := by
      rcases hp with hp | hp
      · exact Bool.noConfusion hp
      · exact hp
    exact normalizeLesson_shell (normTitle_truthy x) hO2 hO3 hPok hIok
      s1 s2 s3 s4 s5 s6 s7 (Or.inr hfb)
  · exact normalizeLesson_shell (normTitle_truthy x) hO2 hO3 hPok hIok
      s1 s2 s3 s4 s5 s6 s7 (Or.inl (List.cons_ne_nil p ps))

/-- **C5 witness**: the lesson normalized from
`{"objectives": ["a","b"], "materials": ["m"]}` is a fixed point of the
normalizer (its plan fallback is empty, so the side condition holds). -/
theorem normalize_idempotent_witness :
    normalizeLesson
      [("title", .str "Leçon"), ("duration", .str "30 min"),
       ("objectives", .list [.str "a", .str "b"]),
       ("materials", .list [.str "m"]),
       ("plan", .list []), ("image_prompts", .list []),
       ("first_tutor_messages", .list [.str "Bonjour ! Leçon"]),
       ("warm_up", .dict [("name", .str "Warm Up"), ("minutes", .str ""),
          ("teacher_script", .str "")]),
       ("vocab_cards", .dict [("name", .str "Vocab Cards"),
          ("minutes", .str ""), ("teacher_script", .str "")]),
       ("mini_story", .dict [("name", .str "Mini Story"),
          ("minutes", .str ""), ("teacher_script", .str "")]),
       ("phonics_focus", .dict [("name", .str "Phonics Focus"),
          ("minutes", .str ""), ("teacher_script", .str "")]),
       ("practice", .dict [("name", .str "Practice"), ("minutes", .str ""),
          ("teacher_script", .str "")]),
       ("wrap_up", .dict [("name", .str "Wrap Up"), ("minutes", .str ""),
          ("teacher_script", .str "")]),
       ("homework", .dict [("name", .str "Homework"), ("minutes", .str ""),
          ("teacher_script", .str "")])] =
      Except.ok
      [("title", .str "Leçon"), ("duration", .str "30 min"),
       ("objectives", .list [.str "a", .str "b"]),
       ("materials", .list [.str "m"]),
       ("plan", .list []), ("image_prompts", .list []),
       ("first_tutor_messages", .list [.str "Bonjour ! Leçon"]),
       ("warm_up", .dict [("name", .str "Warm Up"), ("minutes", .str ""),
          ("teacher_script", .str "")]),
       ("vocab_cards", .dict [("name", .str "Vocab Cards"),
          ("minutes", .str ""), ("teacher_script", .str "")]),
       ("mini_story", .dict [("name", .str "Mini Story"),
          ("minutes", .str ""), ("teacher_script", .str "")]),
       ("phonics_focus", .dict [("name", .str "Phonics Focus"),
          ("minutes", .str ""), ("teacher_script", .str "")]),
       ("practice", .dict [("name", .str "Practice"), ("minutes", .str ""),
          ("teacher_script", .str "")]),
       ("wrap_up", .dict [("name", .str "Wrap Up"), ("minutes", .str ""),
          ("teacher_script", .str "")]),
       ("homework", .dict [("name", .str "Homework"), ("minutes", .str ""),
          ("teacher_script", .str "")])] :=
  normalize_idempotent
    (x := [("objectives", .list [.str "a", .str "b"]),
           ("materials", .list [.str "m"])])
    rfl (Or.inr rfl)

/-- **C5 counterexample**: unconditional idempotence fails.  For the input
`{"objectives": ["a","b"], "materials": ["m"], "plan": [1],
"warm_up": {"minutes": 5}}` the first pass yields `plan = []` (the only plan
entry is not a dict and is skipped), but the second pass, seeing a falsy
`plan`, rebuilds it from the activity blocks (warm-up now has truthy minutes
`"5"`), so `normalize (normalize x) ≠ normalize x`. -/
theorem normalize_idempotent_cex :
    normalizeLesson
        [("objectives", .list [.str "a", .str "b"]),
         ("materials", .list [.str "m"]),
         ("plan", .list [.int 1]),
         ("warm_up", .dict [("minutes", .int 5)])] =
      Except.ok
        [("title", .str "Leçon"), ("duration", .str "30 min"),
         ("objectives", .list [.str "a", .str "b"]),
         ("materials", .list [.str "m"]),
         ("plan", .list []), ("image_prompts", .list []),
         ("first_tutor_messages", .list [.str "Bonjour ! Leçon"]),
         ("warm_up", .dict [("name", .str "Warm Up"), ("minutes", .str "5"),
            ("teacher_script", .str "")]),
         ("vocab_cards", .dict [("name", .str "Vocab Cards"),
            ("minutes", .str ""), ("teacher_script", .str "")]),
         ("mini_story", .dict [("name", .str "Mini Story"),
            ("minutes", .str ""), ("teacher_script", .str "")]),
         ("phonics_focus", .dict [("name", .str "Phonics Focus"),
            ("minutes", .str ""), ("teacher_script", .str "")]),
         ("practice", .dict [("name", .str "Practice"), ("minutes", .str ""),
            ("teacher_script", .str "")]),
         ("wrap_up", .dict [("name", .str "Wrap Up"), ("minutes", .str ""),
            ("teacher_script", .str "")]),
         ("homework", .dict [("name", .str "Homework"), ("minutes", .str ""),
            ("teacher_script", .str "")])] ∧
    normalizeLesson
        [("title", .str "Leçon"), ("duration", .str "30 min"),
         ("objectives", .list [.str "a", .str "b"]),
         ("materials", .list [.str "m"]),
         ("plan", .list []), ("image_prompts", .list []),
         ("first_tutor_messages", .list [.str "Bonjour ! Leçon"]),
         ("warm_up", .dict [("name", .str "Warm Up"), ("minutes", .str "5"),
            ("teacher_script", .str "")]),
         ("vocab_cards", .dict [("name", .str "Vocab Cards"),
            ("minutes", .str ""), ("teacher_script", .str "")]),
         ("mini_story", .dict [("name", .str "Mini Story"),
            ("minutes", .str ""), ("teacher_script", .str "")]),
         ("phonics_focus", .dict [("name", .str "Phonics Focus"),
            ("minutes", .str ""), ("teacher_script", .str "")]),
         ("practice", .dict [("name", .str "Practice"), ("minutes", .str ""),
            ("teacher_script", .str "")]),
         ("wrap_up", .dict [("name", .str "Wrap Up"), ("minutes", .str ""),
            ("teacher_script", .str "")]),
         ("homework", .dict [("name", .str "Homework"), ("minutes", .str ""),
            ("teacher_script", .str "")])] =
      Except.ok
        [("title", .str "Leçon"), ("duration", .str "30 min"),
         ("objectives", .list [.str "a", .str "b"]),
         ("materials", .list [.str "m"]),
         ("plan", .list [.dict [("name", .str "Warm Up"),
            ("minutes", .str "5"), ("teacher_script", .str "")]]),
         ("image_prompts", .list []),
         ("first_tutor_messages", .list [.str "Bonjour ! Leçon"]),
         ("warm_up", .dict [("name", .str "Warm Up"), ("minutes", .str "5"),
            ("teacher_script", .str "")]),
         ("vocab_cards", .dict [("name", .str "Vocab Cards"),
            ("minutes", .str ""), ("teacher_script", .str "")]),
         ("mini_story", .dict [("name", .str "Mini Story"),
            ("minutes", .str ""), ("teacher_script", .str "")]),
         ("phonics_focus", .dict [("name", .str "Phonics Focus"),
            ("minutes", .str ""), ("teacher_script", .str "")]),
         ("practice", .dict [("name", .str "Practice"), ("minutes", .str ""),
            ("teacher_script", .str "")]),
         ("wrap_up", .dict [("name", .str "Wrap Up"), ("minutes", .str ""),
            ("teacher_script", .str "")]),
         ("homework", .dict [("name", .str "Homework"), ("minutes", .str ""),
            ("teacher_script", .str "")])] ∧
    (PyVal.list [] ≠
      PyVal.list [.dict [("name", .str "Warm Up"), ("minutes", .str "5"),
        ("teacher_script", .str "")]]) :=
  ⟨rfl, rfl, by simp⟩

/-! ## Image-prompt id synthesis -/

theorem ipEntry_id {d : List (String × PyVal)} {i : Nat} {v : PyVal}
    (hid : truthy (pyGet d "id") = false)
    (h : ipEntry d i = Except.ok (Option.some v)) :
    idOf v = PyVal.str ("img" ++ Nat.repr (i + 1)) := by
  rw [ipEntry] at h
  simp only [bind, Except.bind, pure, Except.pure] at h
  split at h
  · injection h with h1
    injection h1 with h2
    subst h2
    show pyOr (pyGet d "id") (PyVal.str ("img" ++ Nat.repr (i + 1))) = _
    exact pyOr_neg _ hid
  · split at h
    · split at h
      · cases h
      · split at h
        · injection h with h1
          injection h1 with h2
          subst h2
          show pyOr (pyGet d "id") (PyVal.str ("img" ++ Nat.repr (i + 1))) = _
          exact pyOr_neg _ hid
        · injection h with h1
          cases h1
    · injection h with h1
      cases h1

theorem ipFromList_ids :
    ∀ {l : List PyVal} {i : Nat} {I : List PyVal},
      (∀ d, PyVal.dict d ∈ l → truthy (pyGet d "id") = false) →
      ipFromList l i = Except.ok I →
      ∃ js : List Nat, js.Pairwise (· < ·) ∧ (∀ j ∈ js, i ≤ j) ∧
        I.map idOf = js.map (fun j => PyVal.str ("img" ++ Nat.repr (j + 1))) := by
  intro l
  induction l with
  | nil =>
    intro i I hids h
    rw [ipFromList] at h
    injection h with h1
    subst h1
    exact ⟨[], List.Pairwise.nil, by simp, rfl⟩
  | cons it rest ih =>
    intro i I hids h
    have hrest : ∀ d2, PyVal.dict d2 ∈ rest → truthy (pyGet d2 "id") = false :=
      fun d2 hd2 => hids d2 (List.mem_cons_of_mem _ hd2)
    match it with
    | .dict d =>
      rw [ipFromList] at h
      simp only [bind, Except.bind, pure, Except.pure] at h
      split at h
      · cases h
      · rename_i e he
        split at h
        · cases h
        · rename_i tail htail
          injection h with h1
          obtain ⟨js, hpw, hge, hmap⟩ := ih hrest htail
          cases e with
          | none =>
            simp only at h1
            subst h1
            exact ⟨js, hpw,
              fun j hj => le_trans (Nat.le_succ i) (hge j hj), hmap⟩
          | some v0 =>
            simp only at h1
            subst h1
            have hidv := ipEntry_id (hids d (List.mem_cons_self _ _)) he
            refine ⟨i :: js, ?_, ?_, ?_⟩
            · exact List.Pairwise.cons
                (fun j hj => lt_of_lt_of_le (Nat.lt_succ_self i) (hge j hj))
                hpw
            · intro j hj
              rcases List.mem_cons.mp hj with rfl | hj
              · exact le_refl j
              · exact le_trans (Nat.le_succ i) (hge j hj)
            · simp only [List.map_cons]
              rw [hidv, hmap]
    | .none | .bool _ | .int _ | .float _ | .str _ | .list _ =>
      simp only [ipFromList] at h
      obtain ⟨js, hpw, hge, hmap⟩ := ih hrest h
      exact ⟨js, hpw, fun j hj => le_trans (Nat.le_succ i) (hge j hj), hmap⟩

/-- **C6** (corrected): every lesson accepted by the normalizer has all seven
canonical keys present, every `plan` entry is a dict whose `name` is not
null, and — provided no dict entry of the image-prompt input list supplies a
truthy `id` of its own — the ids of the `image_prompts` entries (then all
synthesized as `img{n}`) are pairwise distinct.  Without that proviso
distinctness fails: caller-supplied ids are kept verbatim and may collide
(see the counterexample). -/
theorem lesson_invariant {x y : List (String × PyVal)}
    (h : normalizeLesson x = Except.ok y) :
    (pyHasKey y "title" = true ∧ pyHasKey y "duration" = true ∧
     pyHasKey y "objectives" = true ∧ pyHasKey y "materials" = true ∧
     pyHasKey y "plan" = true ∧ pyHasKey y "image_prompts" = true ∧
     pyHasKey y "first_tutor_messages" = true) ∧
    (∀ p ∈ planVals y, ∃ d, p = PyVal.dict d ∧ pyGet d "name" ≠ PyVal.none) ∧
    ((∀ d, PyVal.dict d ∈ ipInputList x → truthy (pyGet d "id") = false) →
      ((ipVals y).map idOf).Nodup) := by
  obtain ⟨O, M, P, I, a1, a2, a3, a4, a5, a6, a7, hy, hO2, hO3, hM, hPok, hIok,
    s1, s2, s3, s4, s5, s6, s7, hIeq⟩ := normalizeLesson_shape h
  subst hy
  refine ⟨⟨rfl, rfl, rfl, rfl, rfl, rfl, rfl⟩, ?_, ?_⟩
  · intro p hp
    have hp2 : p ∈ P := hp
    obtain ⟨n, m, t, rfl, hn, _, _, _⟩ := hPok p hp2
    refine ⟨_, rfl, ?_⟩
    show n ≠ PyVal.none
    intro hc
    subst hc
    cases hn
  · intro hids
    rw [normImagePrompts] at hIeq
    split at hIeq
    · rename_i l hl
      have hin : ipInputList x = l := by
        rw [ipInputList, hl]
      obtain ⟨js, hpw, _, hmap⟩ :=
        ipFromList_ids (fun d hd => hids d (hin ▸ hd)) hIeq
      show (I.map idOf).Nodup
      rw [hmap]
      refine List.Nodup.map ?_ (hpw.imp (fun hab => ne_of_lt hab))
      intro a b hab
      simp only [PyVal.str.injEq] at hab
      have := img_id_inj hab
      omega
    · injection hIeq with h1
      subst h1
      show (List.map idOf []).Nodup
      simp

/-- **C6 witness**: for the lesson normalized from
`{"objectives": ["a","b"], "materials": ["m"]}` all seven keys are present,
every plan entry has a non-null name (vacuously, the plan is empty), and the
image-prompt ids are distinct; the no-caller-supplied-id proviso holds
because the image-prompt input list is empty. -/
theorem lesson_invariant_witness :
    (pyHasKey
        [("title", PyVal.str "Leçon"), ("duration", PyVal.str "30 min"),
         ("objectives", PyVal.list [.str "a", .str "b"]),
         ("materials", PyVal.list [.str "m"]),
         ("plan", PyVal.list []), ("image_prompts", PyVal.list []),
         ("first_tutor_messages", PyVal.list [.str "Bonjour ! Leçon"]),
         ("warm_up", PyVal.dict [("name", .str "Warm Up"),
            ("minutes", .str ""), ("teacher_script", .str "")]),
         ("vocab_cards", PyVal.dict [("name", .str "Vocab Cards"),
            ("minutes", .str ""), ("teacher_script", .str "")]),
         ("mini_story", PyVal.dict [("name", .str "Mini Story"),
            ("minutes", .str ""), ("teacher_script", .str "")]),
         ("phonics_focus", PyVal.dict [("name", .str "Phonics Focus"),
            ("minutes", .str ""), ("teacher_script", .str "")]),
         ("practice", PyVal.dict [("name", .str "Practice"),
            ("minutes", .str ""), ("teacher_script", .str "")]),
         ("wrap_up", PyVal.dict [("name", .str "Wrap Up"),
            ("minutes", .str ""), ("teacher_script", .str "")]),
         ("homework", PyVal.dict [("name", .str "Homework"),
            ("minutes", .str ""), ("teacher_script", .str "")])]
        "image_prompts" = true) ∧
    (∀ p ∈ planVals
        [("title", PyVal.str "Leçon"), ("duration", PyVal.str "30 min"),
         ("objectives", PyVal.list [.str "a", .str "b"]),
         ("materials", PyVal.list [.str "m"]),
         ("plan", PyVal.list []), ("image_prompts", PyVal.list []),
         ("first_tutor_messages", PyVal.list [.str "Bonjour ! Leçon"]),
         ("warm_up", PyVal.dict [("name", .str "Warm Up"),
            ("minutes", .str ""), ("teacher_script", .str "")]),
         ("vocab_cards", PyVal.dict [("name", .str "Vocab Cards"),
            ("minutes", .str ""), ("teacher_script", .str "")]),
         ("mini_story", PyVal.dict [("name", .str "Mini Story"),
            ("minutes", .str ""), ("teacher_script", .str "")]),
         ("phonics_focus", PyVal.dict [("name", .str "Phonics Focus"),
            ("minutes", .str ""), ("teacher_script", .str "")]),
         ("practice", PyVal.dict [("name", .str "Practice"),
            ("minutes", .str ""), ("teacher_script", .str "")]),
         ("wrap_up", PyVal.dict [("name", .str "Wrap Up"),
            ("minutes", .str ""), ("teacher_script", .str "")]),
         ("homework", PyVal.dict [("name", .str "Homework"),
            ("minutes", .str ""), ("teacher_script", .str "")])],
      ∃ d, p = PyVal.dict d ∧ pyGet d "name" ≠ PyVal.none) ∧
    ((ipVals
        [("title", PyVal.str "Leçon"), ("duration", PyVal.str "30 min"),
         ("objectives", PyVal.list [.str "a", .str "b"]),
         ("materials", PyVal.list [.str "m"]),
         ("plan", PyVal.list []), ("image_prompts", PyVal.list []),
         ("first_tutor_messages", PyVal.list [.str "Bonjour ! Leçon"]),
         ("warm_up", PyVal.dict [("name", .str "Warm Up"),
            ("minutes", .str ""), ("teacher_script", .str "")]),
         ("vocab_cards", PyVal.dict [("name", .str "Vocab Cards"),
            ("minutes", .str ""), ("teacher_script", .str "")]),
         ("mini_story", PyVal.dict [("name", .str "Mini Story"),
            ("minutes", .str ""), ("teacher_script", .str "")]),
         ("phonics_focus", PyVal.dict [("name", .str "Phonics Focus"),
            ("minutes", .str ""), ("teacher_script", .str "")]),
         ("practice", PyVal.dict [("name", .str "Practice"),
            ("minutes", .str ""), ("teacher_script", .str "")]),
         ("wrap_up", PyVal.dict [("name", .str "Wrap Up"),
            ("minutes", .str ""), ("teacher_script", .str "")]),
         ("homework", PyVal.dict [("name", .str "Homework"),
            ("minutes", .str ""), ("teacher_script", .str "")])]).map
      idOf).Nodup := by
  obtain ⟨⟨_, _, _, _, _, hip, _⟩, hplan, hids⟩ := lesson_invariant
    (x := [("objectives", PyVal.list [.str "a", .str "b"]),
           ("materials", PyVal.list [.str "m"])])
    rfl
  exact ⟨hip, hplan, hids (fun d hd => absurd hd (List.not_mem_nil _))⟩

/-- **C6 counterexample**: caller-supplied image-prompt ids are kept verbatim,
so two entries both carrying `"id": "z"` survive normalization with equal
ids — the unconditional uniqueness claim is false. -/
theorem lesson_invariant_cex :
    (normalizeLesson
        [("objectives", .list [.str "a", .str "b"]),
         ("materials", .list [.str "m"]),
         ("image_prompts", .list
           [.dict [("prompt", .str "p"), ("id", .str "z")],
            .dict [("prompt", .str "q"), ("id", .str "z")]])]).map
      (fun y => (ipVals y).map idOf) =
      Except.ok [PyVal.str "z", PyVal.str "z"] ∧
    ¬ ([PyVal.str "z", PyVal.str "z"] : List PyVal).Nodup := by
  constructor
  · rfl
  · intro hc
    exact (List.nodup_cons.mp hc).1 (List.mem_singleton.mpr rfl)
